import Mathlib

/-!
Verification of the `ina` binary diff/patch library and its `sufsort` suffix
array crate, as a shallow embedding in Lean.

Byte blobs and byte streams are modelled as `List Nat`, each element standing
for one `u8`; where wrapping 8-bit arithmetic occurs in the source it is
written out with explicit `% 256`.  Machine integers that matter (`u32`
header fields, `u64` varint accumulators, `i64` seeks) are `Nat`/`Int` with
explicit reductions modulo a power of two at the places the source truncates.
Fallible operations return `Except`.

The zstd compression envelope is external to the repository and is treated by
the specification as an opaque streaming codec; it is modelled here as the
identity on byte lists (`zstdEncode`/`zstdDecode`), so that the inner patch
payload is studied uncompressed.
-/

namespace Ina

/-- Errors produced by I/O operations in the model.  `unexpectedEof` stands
for `std::io::ErrorKind::UnexpectedEof` (raised by `read_exact` and by
`integer_encoding`'s `read_varint` at end of stream), `invalidData` for the
`Unterminated varint` error of `integer_encoding`, and `invalidSeek` for the
error a `Cursor` raises on seeking to a negative position. -/
inductive IoErr where
  | unexpectedEof
  | invalidData
  | invalidSeek
  deriving DecidableEq, Repr

/-- Model of `PatchError` from patch.rs. -/
inductive PatchError where
  | io (e : IoErr)
  | badMagic (magic : Nat)
  | unsupportedVersion (version : Nat)
  deriving DecidableEq, Repr

/-- Wrapping byte addition, `u8::wrapping_add` from patch.rs. -/
def wadd (a b : Nat) : Nat := (a % 256 + b % 256) % 256

/-- Wrapping byte subtraction, `u8::wrapping_sub` from bsdiff.rs. -/
def wsub (a b : Nat) : Nat := (a % 256 + (256 - b % 256)) % 256

/-- `read_u32::<LittleEndian>`: consume four bytes, little-endian value. -/
def readU32LE : List Nat → Except IoErr (Nat × List Nat)
  | a :: b :: c :: d :: rest =>
      .ok (a % 256 + (b % 256) * 256 + (c % 256) * 65536 + (d % 256) * 16777216, rest)
  | _ => .error .unexpectedEof

/-- `read_u16::<LittleEndian>`: consume two bytes, little-endian value. -/
def readU16LE : List Nat → Except IoErr (Nat × List Nat)
  | a :: b :: rest => .ok (a % 256 + (b % 256) * 256, rest)
  | _ => .error .unexpectedEof

/-- The four bytes written by `write_u32::<LittleEndian>` in diff.rs. -/
def u32leBytes (n : Nat) : List Nat :=
  [n % 256, n / 256 % 256, n / 65536 % 256, n / 16777216 % 256]

/-- Loop of `integer_encoding`'s `read_varint` for a 64-bit target: single
bytes are pulled until one with a clear high bit arrives; end of input is
`UnexpectedEof`; an eleventh byte is the `Unterminated varint` error
(`maxsize` is 10 for 64-bit integers).  Each 7-bit group is or-ed into a
`u64` accumulator after a left shift, so the contribution of a group is
taken modulo `2 ^ 64`. -/
def readVarintLoop : Nat → Nat → Nat → List Nat → Except IoErr (Nat × List Nat)
  | _, _, _, [] => .error .unexpectedEof
  | 0, _, _, _ :: _ => .error .invalidData
  | budget + 1, shift, acc, b :: rest =>
      let c := b % 256
      let acc := acc + c % 128 * 2 ^ shift % 2 ^ 64
      if c < 128 then .ok (acc, rest)
      else readVarintLoop budget (shift + 7) acc rest

/-- `read_varint` for an unsigned 64-bit integer (used for `data_offset`,
add lengths and copy lengths). -/
def readVarint (s : List Nat) : Except IoErr (Nat × List Nat) :=
  readVarintLoop 10 0 0 s

/-- Zig-zag decoding applied by `integer_encoding` after reading the raw
unsigned varint of an `i64` (used for the seek field). -/
def zigzagDecode (n : Nat) : Int :=
  if n % 2 = 0 then (n / 2 : Nat) else -((n / 2 : Nat) : Int) - 1

/-- `read_varint` for an `i64`. -/
def readVarintSigned (s : List Nat) : Except IoErr (Int × List Nat) :=
  match readVarint s with
  | .error e => .error e
  | .ok (n, rest) => .ok (zigzagDecode n, rest)

/-- `write_varint` encoding of an unsigned value: little-endian base 128
with a continuation bit. -/
def varintEncode (n : Nat) : List Nat :=
  if h : n < 128 then [n]
  else (n % 128 + 128) :: varintEncode (n / 128)
  decreasing_by exact Nat.div_lt_self (by omega) (by omega)

/-- Zig-zag encoding applied by `write_varint` for signed values. -/
def zigzagEncode (i : Int) : Nat :=
  if 0 ≤ i then 2 * i.toNat else 2 * (-i).toNat - 1

/-- `write_varint` for an `i64` seek value. -/
def varintEncodeSigned (i : Int) : List Nat := varintEncode (zigzagEncode i)

/-- `MAGIC` from header.rs. -/
def MAGIC : Nat := 0x5c956c7c

/-- `VERSION_MAJOR` from header.rs. -/
def VERSION_MAJOR : Nat := 1

/-- `VERSION_MINOR` from header.rs. -/
def VERSION_MINOR : Nat := 0

/-- `DATA_OFFSET` from header.rs. -/
def DATA_OFFSET : Nat := 0

/-- Modelled from the spec: the constant `VERSION` imported and written by
`diff_with_config` in diff.rs is not declared anywhere in the provided
sources (header.rs declares only `VERSION_MAJOR`, `VERSION_MINOR` and
`DATA_OFFSET`).  Per the spec the version field of the header is the 2-byte
little-endian major version followed by the 2-byte little-endian minor
version, so the `u32` whose little-endian bytes realise that layout is
`major | minor << 16`. -/
def VERSION : Nat := VERSION_MAJOR + VERSION_MINOR * 65536

/-- Rust panics and embedding artefacts.  `oob` is an out-of-bounds index or
a `usize` underflow, `assertFail` a failed `assert!`; both abort the program
with a diagnostic.  `fuelOut` marks exhaustion of the explicit fuel used to
embed loops and never corresponds to a source behavior. -/
inductive RunErr where
  | oob
  | assertFail
  | fuelOut
  deriving DecidableEq, Repr

/-- Checked list indexing: Rust `container[i]` panics when out of bounds. -/
def lidx (l : List Nat) (i : Nat) : Except RunErr Nat :=
  if h : i < l.length then .ok (l.get ⟨i, h⟩) else .error .oob

/-- `MajorVersion::try_from` in patch.rs: only the value 1 is accepted. -/
def majorVersionTryFrom (value : Nat) : Except Nat Nat :=
  match value with
  | 1 => .ok 1
  | _ => .error value

/-- `read_header` from patch.rs: verify the magic, read the major and minor
versions, reject unsupported majors, read the `data_offset` varint and
discard that many bytes (`io::copy` over `take(data_offset)` copies at most
what is available and does not fail on a short stream).  Returns the parsed
version and the rest of the stream. -/
def readHeader (s : List Nat) : Except PatchError ((Nat × Nat) × List Nat) :=
  match readU32LE s with
  | .error e => .error (.io e)
  | .ok (magic, s) =>
    if magic ≠ MAGIC then .error (.badMagic magic)
    else
      match readU16LE s with
      | .error e => .error (.io e)
      | .ok (versionMajor, s) =>
        match readU16LE s with
        | .error e => .error (.io e)
        | .ok (versionMinor, s) =>
          match majorVersionTryFrom versionMajor with
          | .error v => .error (.unsupportedVersion v)
          | .ok major =>
            match readVarint s with
            | .error e => .error (.io e)
            | .ok (dataOffset, s) => .ok ((major, versionMinor), s.drop dataOffset)

end Ina

namespace Sufsort

open Ina (RunErr lidx)

/-- `ALPHABET_SIZE` from sacak.rs. -/
def ALPHABET_SIZE : Nat := 256

/-- `EMPTY` from sacak.rs: `1 << (u32::BITS - 1)`. -/
def EMPTY : Nat := 2147483648

/-- `EMPTY` seen through the `bytemuck` i32 view. -/
def EMPTYI : Int := -2147483648

/-- A u32 cell value reinterpreted as i32 (`bytemuck::cast_slice`). -/
def asI32 (v : Nat) : Int := if v < 2147483648 then (v : Int) else (v : Int) - 4294967296

/-- An i32 value stored back into a u32 cell. -/
def toU32 (x : Int) : Nat := (x % 4294967296).toNat

/-- u32 `wrapping_sub(1)`. -/
def wsub1 (v : Nat) : Nat := (v + 4294967295) % 4294967296

/-- Checked read of a u32 cell: Rust slice indexing panics out of bounds. -/
def aget (a : Array Nat) (i : Nat) : Except RunErr Nat :=
  if i < a.size then .ok (a.getD i 0) else .error .oob

/-- Checked write of a u32 cell. -/
def aset (a : Array Nat) (i : Nat) (v : Nat) : Except RunErr (Array Nat) :=
  if i < a.size then .ok (a.setD i v) else .error .oob

/-- `as usize` on an i32 index: a negative value becomes an enormous usize
and the subsequent indexing panics. -/
def idxI (i : Int) : Except RunErr Nat :=
  if 0 ≤ i then .ok i.toNat else .error .oob

/-- Read a cell at an i32 index through the i32 view. -/
def agetII (a : Array Nat) (i : Int) : Except RunErr Int := do
  pure (asI32 (← aget a (← idxI i)))

/-- Write an i32 value at an i32 index. -/
def asetII (a : Array Nat) (i : Int) (v : Int) : Except RunErr (Array Nat) := do
  aset a (← idxI i) (toU32 v)

/-- Read a cell at a Nat index through the i32 view. -/
def agetI32 (a : Array Nat) (i : Nat) : Except RunErr Int := do
  pure (asI32 (← aget a i))

/-- `for i in 0..n` with effectful body. -/
def foldRangeM {σ : Type} (n : Nat) (f : σ → Nat → Except RunErr σ) (s : σ) : Except RunErr σ :=
  (List.range n).foldlM f s

/-- `for i in (lo..=hi).rev()` with effectful body. -/
def foldRangeRevM {σ : Type} (lo hi : Nat) (f : σ → Nat → Except RunErr σ) (s : σ) : Except RunErr σ :=
  ((List.range (hi + 1 - lo)).map (fun t => hi - t)).foldlM f s

/-- A fuelled `while` loop with effectful condition; the fuel only bounds
the iteration count of the embedding and is always ample. -/
def whileCM {σ : Type} : Nat → (σ → Except RunErr Bool) → (σ → Except RunErr σ) → σ → Except RunErr σ
  | 0, _, _, _ => .error .fuelOut
  | fuel + 1, c, f, s => do
      if (← c s) then
        whileCM fuel c f (← f s)
      else
        .ok s

/-- `get_buckets` from sacak.rs; the bucket buffer is cleared on entry, so
it is modelled as freshly built. -/
def get_buckets (data : List Nat) (bEnd : Bool) : Except RunErr (Array Nat) := do
  let bucket : Array Nat := Array.mkArray ALPHABET_SIZE 0
  let bucket ← data.foldlM (fun (b : Array Nat) x => do aset b x ((← aget b x) + 1)) bucket
  let st ← foldRangeM ALPHABET_SIZE
    (fun (st : Array Nat × Nat) i => do
      let (b, sum) := st
      let v ← aget b i
      let sum := sum + v
      let b ← aset b i (if bEnd then toU32 ((sum : Int) - 1) else sum - v)
      pure (b, sum))
    (bucket, 0)
  pure st.1

/-- `put_substring_zero` from sacak.rs. -/
def put_substring_zero (sa : Array Nat) (data : List Nat) : Except RunErr (Array Nat) := do
  let bucket ← get_buckets data true
  let st ← foldRangeRevM 1 (data.length - 2)
    (fun (st : Array Nat × Array Nat × Bool) i => do
      let (sa, bucket, succS) := st
      let dim1 ← lidx data (i - 1)
      let di ← lidx data i
      let curS : Bool := decide (dim1 < di) || (decide (dim1 = di) && succS)
      if curS = false ∧ succS = true then do
        let bi ← aget bucket di
        let sa ← aset sa bi i
        let bucket ← aset bucket di (wsub1 bi)
        pure (sa, bucket, curS)
      else
        pure (sa, bucket, curS))
    (sa, bucket, false)
  aset st.1 0 (data.length - 1)

/-- `induce_suffix_array_l_zero` from sacak.rs. -/
def induce_suffix_array_l_zero (sa : Array Nat) (data : List Nat) (suffix : Bool) :
    Except RunErr (Array Nat) := do
  let bucket ← get_buckets data false
  let b0 ← aget bucket 0
  let bucket ← aset bucket 0 (b0 + 1)
  let st ← foldRangeM data.length
    (fun (st : Array Nat × Array Nat) i => do
      let (sa, bucket) := st
      let v ← aget sa i
      if v > 0 then do
        let j := v - 1
        let dj ← lidx data j
        let dj1 ← lidx data (j + 1)
        if dj ≥ dj1 then do
          let bj ← aget bucket dj
          let sa ← aset sa bj j
          let bucket ← aset bucket dj (bj + 1)
          let sa ← if suffix = false ∧ i > 0 then aset sa i 0 else pure sa
          pure (sa, bucket)
        else pure (sa, bucket)
      else pure (sa, bucket))
    (sa, bucket)
  pure st.1

/-- `induce_suffix_array_s_zero` from sacak.rs. -/
def induce_suffix_array_s_zero (sa : Array Nat) (data : List Nat) (suffix : Bool) :
    Except RunErr (Array Nat) := do
  let bucket ← get_buckets data true
  let st ← foldRangeRevM 1 (data.length - 1)
    (fun (st : Array Nat × Array Nat) i => do
      let (sa, bucket) := st
      let v ← aget sa i
      if v > 0 then do
        let j := v - 1
        let dj ← lidx data j
        let dj1 ← lidx data (j + 1)
        let bj ← aget bucket dj
        if dj ≤ dj1 ∧ bj < i then do
          let sa ← aset sa bj j
          let bucket ← aset bucket dj (wsub1 bj)
          let sa ← if suffix = false then aset sa i 0 else pure sa
          pure (sa, bucket)
        else pure (sa, bucket)
      else pure (sa, bucket))
    (sa, bucket)
  pure st.1

/-- `get_length_of_lms_zero` from sacak.rs. -/
def get_length_of_lms_zero (data : List Nat) (x : Nat) : Except RunErr Nat := do
  if x = data.length - 1 then pure 1
  else do
    let i1 ← whileCM (data.length + 2)
      (fun i => do
        let a ← lidx data (x + i)
        let b ← lidx data (x + i - 1)
        pure (decide (a ≥ b)))
      (fun i => pure (i + 1))
      1
    let st ← whileCM (data.length + 2)
      (fun (st : Nat × Nat) => do
        if x + st.1 > data.length - 1 then pure false
        else do
          let a ← lidx data (x + st.1)
          let b ← lidx data (x + st.1 - 1)
          pure (decide (a ≤ b)))
      (fun (st : Nat × Nat) => do
        let (i, dist) := st
        let dist ←
          if x + i = data.length - 1 then pure i
          else do
            let a ← lidx data (x + i)
            let b ← lidx data (x + i - 1)
            pure (if a < b then i else dist)
        pure (i + 1, dist))
      (i1, 0)
    pure (st.2 + 1)

/-- `name_substrings_zero` from sacak.rs; returns the updated array and the
name counter. -/
def name_substrings_zero (sa : Array Nat) (data : List Nat) (n1 s1_offset : Nat) :
    Except RunErr (Array Nat × Nat) := do
  let sa ← foldRangeM (data.length - n1) (fun sa t => aset sa (n1 + t) EMPTY) sa
  let st ← foldRangeM n1
    (fun (st : Array Nat × Nat × Nat × Nat × Nat) i => do
      let (sa, nameCounter, name, preLen, prePos) := st
      let pos ← aget sa i
      let len ← get_length_of_lms_zero data pos
      let diff ←
        if len ≠ preLen then pure true
        else do
          let r ← whileCM (len + 2)
            (fun (st2 : Nat × Bool) => pure (decide (st2.1 < len) && !st2.2))
            (fun (st2 : Nat × Bool) => do
              let (d, _) := st2
              if pos + d = data.length - 1 ∨ prePos + d = data.length - 1 then
                pure (d + 1, true)
              else do
                let a ← lidx data (pos + d)
                let b ← lidx data (prePos + d)
                pure (d + 1, decide (a ≠ b)))
            (0, false)
          pure r.2
      let (sa, nameCounter, name, preLen, prePos) ←
        if diff then do
          let sa ← aset sa i 1
          pure (sa, nameCounter + 1, i, len, pos)
        else do
          let v ← aget sa name
          let sa ← aset sa name (v + 1)
          pure (sa, nameCounter, name, preLen, prePos)
      let sa ← aset sa (n1 + pos / 2) name
      pure (sa, nameCounter, name, preLen, prePos))
    (sa, 0, 0, 0, 0)
  let (sa, nameCounter, _, _, _) := st
  let st2 ← whileCM (data.length + 2)
    (fun (st2 : Array Nat × Nat × Nat) => pure (decide (st2.2.1 ≥ n1)))
    (fun (st2 : Array Nat × Nat × Nat) => do
      let (sa, i, j) := st2
      let v ← aget sa i
      if v ≠ EMPTY then do
        let sa ← aset sa j v
        pure (sa, wsub1 i, wsub1 j)
      else
        pure (sa, wsub1 i, j))
    (sa, data.length - 1, sa.size - 1)
  let sa := st2.1
  let st3 ← whileCM (n1 + 2)
    (fun (st3 : Array Nat × Bool × Nat) => pure (decide (st3.2.2 > 0)))
    (fun (st3 : Array Nat × Bool × Nat) => do
      let (sa, succS, i) := st3
      let ch := asI32 (← aget sa (s1_offset + i))
      let ch1 := asI32 (← aget sa (s1_offset + i - 1))
      let curS : Bool := decide (ch1 < ch) || (decide (ch1 = ch) && succS)
      let sa ←
        if curS then do
          let a ← aget sa (s1_offset + i - 1)
          let inner ← aget sa a
          aset sa (s1_offset + i - 1) (toU32 ((a : Int) + (inner : Int) - 1))
        else pure sa
      pure (sa, curS, i - 1))
    (sa, true, n1 - 1)
  pure (st3.1, nameCounter)

/-- `get_suffix_array_lms_zero` from sacak.rs. -/
def get_suffix_array_lms_zero (sa : Array Nat) (data : List Nat) (n1 s1_offset : Nat) :
    Except RunErr (Array Nat) := do
  let j := n1 - 1
  let sa ← aset sa (s1_offset + j) (data.length - 1)
  let j := wsub1 j
  let st ← foldRangeRevM 1 (data.length - 2)
    (fun (st : Array Nat × Nat × Bool) i => do
      let (sa, j, succS) := st
      let dim1 ← lidx data (i - 1)
      let di ← lidx data i
      let curS : Bool := decide (dim1 < di) || (decide (dim1 = di) && succS)
      if curS = false ∧ succS = true then do
        let sa ← aset sa (s1_offset + j) i
        pure (sa, wsub1 j, curS)
      else
        pure (sa, j, curS))
    (sa, j, false)
  let sa := st.1
  let sa ← foldRangeM n1
    (fun sa i => do
      let v ← aget sa i
      let w ← aget sa (s1_offset + v)
      aset sa i w)
    sa
  foldRangeM (data.length - n1) (fun sa t => aset sa (n1 + t) 0) sa

/-- `put_suffix_zero` from sacak.rs. -/
def put_suffix_zero (sa : Array Nat) (data : List Nat) (n1 : Nat) :
    Except RunErr (Array Nat) := do
  let bucket ← get_buckets data true
  let st ← foldRangeRevM 1 (n1 - 1)
    (fun (st : Array Nat × Array Nat) i => do
      let (sa, bucket) := st
      let j ← aget sa i
      let sa ← aset sa i 0
      let dj ← lidx data j
      let bj ← aget bucket dj
      let sa ← aset sa bj j
      let bucket ← aset bucket dj (wsub1 bj)
      pure (sa, bucket))
    (sa, bucket)
  aset st.1 0 (data.length - 1)

/-- `put_substring_one` from sacak.rs (the i32 view of the recursion). -/
def put_substring_one (sa data : Array Nat) : Except RunErr (Array Nat) := do
  let n := data.size
  let sa ← foldRangeM n (fun sa i => aset sa i EMPTY) sa
  let c1 ← agetI32 data (n - 2)
  let st ← foldRangeRevM 1 (n - 2)
    (fun (st : Array Nat × Int × Bool) i => do
      let (sa, c1, t1) := st
      let c := c1
      let t := t1
      let c1 ← agetI32 data (i - 1)
      let t1 : Bool := decide (c1 < c) || (decide (c1 = c) && t)
      if t = true ∧ t1 = false then do
        let sac ← agetII sa c
        let sa ←
          if 0 ≤ sac then do
            let r ← whileCM (sa.size + 2)
              (fun (st2 : Array Nat × Int × Int) => do
                pure (decide (0 ≤ (← agetII st2.1 st2.2.2))))
              (fun (st2 : Array Nat × Int × Int) => do
                let (sa, tmp, h) := st2
                let old ← agetII sa h
                let sa ← asetII sa h tmp
                pure (sa, old, h + 1))
              (sa, sac, c + 1)
            let (sa, tmp, h) := r
            let sa ← asetII sa h tmp
            asetII sa c EMPTYI
          else pure sa
        let d ← agetII sa c
        let sa ←
          if d = EMPTYI then do
            let left ← agetII sa (c - 1)
            if left = EMPTYI then do
              let sa ← asetII sa c (-1)
              asetII sa (c - 1) (i : Int)
            else
              asetII sa c (i : Int)
          else do
            let pos := c + d - 1
            let vpos ← agetII sa pos
            if vpos ≠ EMPTYI then do
              let r ← whileCM (sa.size + 2)
                (fun (st2 : Array Nat × Int) => pure (decide (st2.2 < -d)))
                (fun (st2 : Array Nat × Int) => do
                  let (sa, h) := st2
                  let v ← agetII sa (c - h - 1)
                  let sa ← asetII sa (c - h) v
                  pure (sa, h + 1))
                (sa, 0)
              asetII r.1 (pos + 1) (i : Int)
            else do
              let sa ← asetII sa c (d - 1)
              asetII sa pos (i : Int)
        pure (sa, c1, t1)
      else pure (sa, c1, t1))
    (sa, c1, false)
  let sa := st.1
  let sa ← foldRangeRevM 1 (n - 1)
    (fun sa i => do
      let j ← agetI32 sa i
      if j < 0 ∧ j ≠ EMPTYI then do
        let r ← whileCM (sa.size + 2)
          (fun (st2 : Array Nat × Int) => pure (decide (st2.2 < -j)))
          (fun (st2 : Array Nat × Int) => do
            let (sa, h) := st2
            let v ← agetII sa ((i : Int) - h - 1)
            let sa ← asetII sa ((i : Int) - h) v
            pure (sa, h + 1))
          (sa, 0)
        asetII r.1 ((i : Int) - r.2) EMPTYI
      else pure sa)
    sa
  asetII sa 0 ((n : Int) - 1)

/-- `induce_suffix_array_l_one` from sacak.rs. -/
def induce_suffix_array_l_one (sa data : Array Nat) (suffix : Bool) :
    Except RunErr (Array Nat) := do
  let n := data.size
  let st ← whileCM ((n + 2) * (n + 2) + 100)
    (fun (st : Array Nat × Int) => pure (decide (st.2 < (n : Int))))
    (fun (st : Array Nat × Int) => do
      let (sa, i) := st
      let sai ← agetII sa i
      let j : Int := asI32 (toU32 (sai - 1))
      if sai ≤ 0 then
        pure (sa, i + 1)
      else do
        let c ← agetII data j
        let c1 ← agetII data (j + 1)
        if ¬(c ≥ c1) then
          pure (sa, i + 1)
        else do
          let d0 ← agetII sa c
          let (sa, d, step) ←
            if 0 ≤ d0 then do
              let r ← whileCM (sa.size + 2)
                (fun (st2 : Array Nat × Int × Int) => do
                  let v ← agetII st2.1 st2.2.2
                  pure (decide (0 ≤ v) || decide (v = EMPTYI)))
                (fun (st2 : Array Nat × Int × Int) => do
                  let (sa, tmp, h) := st2
                  let old ← agetII sa h
                  let sa ← asetII sa h tmp
                  pure (sa, old, h - 1))
                (sa, d0, c - 1)
              let (sa, tmp, h) := r
              let sa ← asetII sa h tmp
              pure (sa, EMPTYI, if h < i then (0 : Int) else 1)
            else
              pure (sa, d0, (1 : Int))
          let (sa, step) ←
            if d = EMPTYI then do
              let sizeOne ←
                if c < (n : Int) - 1 then do
                  let r ← agetII sa (c + 1)
                  pure (decide (r ≠ EMPTYI))
                else pure true
              if sizeOne then do
                let sa ← asetII sa c j
                pure (sa, step)
              else do
                let sa ← asetII sa c (-1)
                let sa ← asetII sa (c + 1) j
                pure (sa, step)
            else do
              let pos := c - d + 1
              let hit ←
                if pos > (n : Int) - 1 then pure true
                else do
                  let v ← agetII sa pos
                  pure (decide (v ≠ EMPTYI))
              if hit then do
                let r ← whileCM (sa.size + 2)
                  (fun (st2 : Array Nat × Int) => pure (decide (st2.2 < -d)))
                  (fun (st2 : Array Nat × Int) => do
                    let (sa, h) := st2
                    let v ← agetII sa (c + h + 1)
                    let sa ← asetII sa (c + h) v
                    pure (sa, h + 1))
                  (sa, 0)
                let sa ← asetII r.1 (pos - 1) j
                pure (sa, if c < i then (0 : Int) else step)
              else do
                let sa ← asetII sa c (d - 1)
                let sa ← asetII sa pos j
                pure (sa, step)
          let isL2 ←
            if j + 1 < (n : Int) - 1 then do
              let c2 ← agetII data (j + 2)
              pure (decide (c1 > c2) || (decide (c1 = c2) && decide (c1 < i)))
            else pure false
          let sa ←
            if (suffix = false ∨ isL2 = false) ∧ i > 0 then do
              let i1 : Int := if step = 0 then i - 1 else i
              asetII sa i1 EMPTYI
            else pure sa
          pure (sa, i + step))
    (sa, 0)
  let sa := st.1
  foldRangeM (n - 1)
    (fun sa t => do
      let i := 1 + t
      let j ← agetI32 sa i
      if j < 0 ∧ j ≠ EMPTYI then do
        let r ← whileCM (sa.size + 2)
          (fun (st2 : Array Nat × Int) => pure (decide (st2.2 < -j)))
          (fun (st2 : Array Nat × Int) => do
            let (sa, h) := st2
            let v ← agetII sa ((i : Int) + h + 1)
            let sa ← asetII sa ((i : Int) + h) v
            pure (sa, h + 1))
          (sa, 0)
        asetII r.1 ((i : Int) + r.2) EMPTYI
      else pure sa)
    sa

/-- `induce_suffix_array_s_one` from sacak.rs. -/
def induce_suffix_array_s_one (sa data : Array Nat) (suffix : Bool) :
    Except RunErr (Array Nat) := do
  let n := data.size
  let st ← whileCM ((n + 2) * (n + 2) + 100)
    (fun (st : Array Nat × Int) => pure (decide (st.2 > 0)))
    (fun (st : Array Nat × Int) => do
      let (sa, i) := st
      let sai ← agetII sa i
      let j : Int := asI32 (toU32 (sai - 1))
      if sai ≤ 0 then
        pure (sa, i - 1)
      else do
        let c ← agetII data j
        let c1 ← agetII data (j + 1)
        if ¬(c < c1 ∨ (c = c1 ∧ c > i)) then
          pure (sa, i - 1)
        else do
          let d0 ← agetII sa c
          let (sa, d, step) ←
            if 0 ≤ d0 then do
              let r ← whileCM (sa.size + 2)
                (fun (st2 : Array Nat × Int × Int) => do
                  let v ← agetII st2.1 st2.2.2
                  pure (decide (0 ≤ v) || decide (v = EMPTYI)))
                (fun (st2 : Array Nat × Int × Int) => do
                  let (sa, tmp, h) := st2
                  let old ← agetII sa h
                  let sa ← asetII sa h tmp
                  pure (sa, old, h + 1))
                (sa, d0, c + 1)
              let (sa, tmp, h) := r
              let sa ← asetII sa h tmp
              pure (sa, EMPTYI, if h > i then (0 : Int) else 1)
            else
              pure (sa, d0, (1 : Int))
          let (sa, step) ←
            if d = EMPTYI then do
              let left ← agetII sa (c - 1)
              if left = EMPTYI then do
                let sa ← asetII sa c (-1)
                let sa ← asetII sa (c - 1) j
                pure (sa, step)
              else do
                let sa ← asetII sa c j
                pure (sa, step)
            else do
              let pos := c + d - 1
              let vpos ← agetII sa pos
              if vpos ≠ EMPTYI then do
                let r ← whileCM (sa.size + 2)
                  (fun (st2 : Array Nat × Int) => pure (decide (st2.2 < -d)))
                  (fun (st2 : Array Nat × Int) => do
                    let (sa, h) := st2
                    let v ← agetII sa (c - h - 1)
                    let sa ← asetII sa (c - h) v
                    pure (sa, h + 1))
                  (sa, 0)
                let sa ← asetII r.1 (pos + 1) j
                pure (sa, if c > i then (0 : Int) else step)
              else do
                let sa ← asetII sa c (d - 1)
                let sa ← asetII sa pos j
                pure (sa, step)
          let sa ←
            if suffix = false then do
              let i1 : Int := if step = 0 then i + 1 else i
              asetII sa i1 EMPTYI
            else pure sa
          pure (sa, i - step))
    (sa, (n : Int) - 1)
  let sa := st.1
  if suffix = false then
    foldRangeRevM 1 (n - 1)
      (fun sa i => do
        let j ← agetI32 sa i
        if j < 0 ∧ j ≠ EMPTYI then do
          let r ← whileCM (sa.size + 2)
            (fun (st2 : Array Nat × Int) => pure (decide (st2.2 < -j)))
            (fun (st2 : Array Nat × Int) => do
              let (sa, h) := st2
              let v ← agetII sa ((i : Int) - h - 1)
              let sa ← asetII sa ((i : Int) - h) v
              pure (sa, h + 1))
            (sa, 0)
          asetII r.1 ((i : Int) - r.2) EMPTYI
        else pure sa)
      sa
  else
    pure sa

/-- `get_length_of_lms_one` from sacak.rs. -/
def get_length_of_lms_one (data : Array Nat) (x : Nat) : Except RunErr Nat := do
  let n := data.size
  if x = n - 1 then pure 1
  else do
    let i1 ← whileCM (n + 2)
      (fun i => do
        let a ← agetI32 data (x + i)
        let b ← agetI32 data (x + i - 1)
        pure (decide (a ≥ b)))
      (fun i => pure (i + 1))
      1
    let st ← whileCM (n + 2)
      (fun (st : Nat × Nat) => do
        if x + st.1 > n - 1 then pure false
        else do
          let a ← agetI32 data (x + st.1)
          let b ← agetI32 data (x + st.1 - 1)
          pure (decide (a ≤ b)))
      (fun (st : Nat × Nat) => do
        let (i, dist) := st
        let dist ←
          if x + i = n - 1 then pure i
          else do
            let a ← agetI32 data (x + i)
            let b ← agetI32 data (x + i - 1)
            pure (if a < b then i else dist)
        pure (i + 1, dist))
      (i1, 0)
    pure (st.2 + 1)

/-- `name_substrings_one` from sacak.rs. -/
def name_substrings_one (sa : Array Nat) (data : Array Nat) (n1 s1_offset : Nat) :
    Except RunErr (Array Nat × Nat) := do
  let n := data.size
  let sa ← foldRangeM (n - n1) (fun sa t => aset sa (n1 + t) EMPTY) sa
  let st ← foldRangeM n1
    (fun (st : Array Nat × Nat × Nat × Nat × Nat) i => do
      let (sa, nameCounter, name, preLen, prePos) := st
      let pos ← aget sa i
      let len ← get_length_of_lms_one data pos
      let diff ←
        if len ≠ preLen then pure true
        else do
          let r ← whileCM (len + 2)
            (fun (st2 : Nat × Bool) => pure (decide (st2.1 < len) && !st2.2))
            (fun (st2 : Nat × Bool) => do
              let (d, _) := st2
              if pos + d = n - 1 ∨ prePos + d = n - 1 then
                pure (d + 1, true)
              else do
                let a ← agetI32 data (pos + d)
                let b ← agetI32 data (prePos + d)
                pure (d + 1, decide (a ≠ b)))
            (0, false)
          pure r.2
      let (sa, nameCounter, name, preLen, prePos) ←
        if diff then do
          let sa ← aset sa i 1
          pure (sa, nameCounter + 1, i, len, pos)
        else do
          let v ← aget sa name
          let sa ← aset sa name (v + 1)
          pure (sa, nameCounter, name, preLen, prePos)
      let sa ← aset sa (n1 + pos / 2) name
      pure (sa, nameCounter, name, preLen, prePos))
    (sa, 0, 0, 0, 0)
  let (sa, nameCounter, _, _, _) := st
  let st2 ← whileCM (n + 2)
    (fun (st2 : Array Nat × Nat × Nat) => pure (decide (st2.2.1 ≥ n1)))
    (fun (st2 : Array Nat × Nat × Nat) => do
      let (sa, i, j) := st2
      let v ← aget sa i
      if v ≠ EMPTY then do
        let sa ← aset sa j v
        pure (sa, wsub1 i, wsub1 j)
      else
        pure (sa, wsub1 i, j))
    (sa, n - 1, sa.size - 1)
  let sa := st2.1
  let st3 ← whileCM (n1 + 2)
    (fun (st3 : Array Nat × Bool × Nat) => pure (decide (st3.2.2 > 0)))
    (fun (st3 : Array Nat × Bool × Nat) => do
      let (sa, succS, i) := st3
      let ch := asI32 (← aget sa (s1_offset + i))
      let ch1 := asI32 (← aget sa (s1_offset + i - 1))
      let curS : Bool := decide (ch1 < ch) || (decide (ch1 = ch) && succS)
      let sa ←
        if curS then do
          let a ← aget sa (s1_offset + i - 1)
          let inner ← aget sa a
          aset sa (s1_offset + i - 1) (toU32 ((a : Int) + (inner : Int) - 1))
        else pure sa
      pure (sa, curS, i - 1))
    (sa, true, n1 - 1)
  pure (st3.1, nameCounter)

/-- `get_suffix_array_lms_one` from sacak.rs. -/
def get_suffix_array_lms_one (sa : Array Nat) (data : Array Nat) (n1 s1_offset : Nat) :
    Except RunErr (Array Nat) := do
  let n := data.size
  let j := n1 - 1
  let sa ← aset sa (s1_offset + j) (n - 1)
  let j := wsub1 j
  let st ← foldRangeRevM 1 (n - 2)
    (fun (st : Array Nat × Nat × Bool) i => do
      let (sa, j, succS) := st
      let dim1 ← agetI32 data (i - 1)
      let di ← agetI32 data i
      let curS : Bool := decide (dim1 < di) || (decide (dim1 = di) && succS)
      if curS = false ∧ succS = true then do
        let sa ← aset sa (s1_offset + j) i
        pure (sa, wsub1 j, curS)
      else
        pure (sa, j, curS))
    (sa, j, false)
  let sa := st.1
  let sa ← foldRangeM n1
    (fun sa i => do
      let v ← aget sa i
      let w ← aget sa (s1_offset + v)
      aset sa i w)
    sa
  foldRangeM (n - n1) (fun sa t => aset sa (n1 + t) EMPTY) sa

/-- `put_suffix_one` from sacak.rs. -/
def put_suffix_one (sa data : Array Nat) (n1 : Nat) : Except RunErr (Array Nat) := do
  let st ← foldRangeRevM 1 (n1 - 1)
    (fun (st : Array Nat × Int × Int) i => do
      let (sa, pre, pos) := st
      let j ← agetI32 sa i
      let sa ← asetII sa (i : Int) EMPTYI
      let cur ← agetII data j
      let (pre, pos) := if cur ≠ pre then (cur, cur) else (pre, pos)
      let sa ← asetII sa pos j
      pure (sa, pre, pos - 1))
    (sa, -1, 0)
  pure st.1

/-- `sacak_recursive` from sacak.rs.  The nested `split_at_mut` views are
modelled by extracting the two regions and reassembling them; the `fuel`
bounds the recursion depth of the embedding and is always ample. -/
def sacak_recursive : Nat → Array Nat → Array Nat → Except RunErr (Array Nat)
  | 0, _, _ => .error .fuelOut
  | fuel + 1, sa, data => do
      let sa ← put_substring_one sa data
      let sa ← induce_suffix_array_l_one sa data false
      let sa ← induce_suffix_array_s_one sa data false
      let n := data.size
      let st ← foldRangeM n
        (fun (st : Array Nat × Nat) i => do
          let (sa, n1) := st
          let v ← agetI32 sa i
          if v > 0 then do
            let w ← aget sa i
            let sa ← aset sa n1 w
            pure (sa, n1 + 1)
          else pure (sa, n1))
        (sa, 0)
      let (sa, n1) := st
      let s1_offset := sa.size - n1
      let (sa, nameCounter) ← name_substrings_one sa data n1 s1_offset
      let sa ←
        if nameCounter < n1 then do
          let innerSa := sa.extract 0 (sa.size - n1)
          let innerData := sa.extract (sa.size - n1) sa.size
          let innerSa ← sacak_recursive fuel innerSa innerData
          pure (innerSa ++ innerData)
        else
          foldRangeM n1
            (fun sa i => do
              let v ← aget sa (s1_offset + i)
              aset sa v i)
            sa
      let sa ← get_suffix_array_lms_one sa data n1 s1_offset
      let sa ← put_suffix_one sa data n1
      let sa ← induce_suffix_array_l_one sa data true
      induce_suffix_array_s_one sa data true

/-- `sacak_level_zero` from sacak.rs. -/
def sacak_level_zero (data : List Nat) (sa : Array Nat) : Except RunErr (Array Nat) := do
  let sa ← put_substring_zero sa data
  let sa ← induce_suffix_array_l_zero sa data false
  let sa ← induce_suffix_array_s_zero sa data false
  let st ← foldRangeM data.length
    (fun (st : Array Nat × Nat) i => do
      let (sa, n1) := st
      let v ← aget sa i
      if v > 0 then do
        let sa ← aset sa n1 v
        pure (sa, n1 + 1)
      else pure (sa, n1))
    (sa, 0)
  let (sa, n1) := st
  let s1_offset := sa.size - n1
  let (sa, nameCounter) ← name_substrings_zero sa data n1 s1_offset
  let sa ←
    if nameCounter < n1 then do
      let innerSa := sa.extract 0 (sa.size - n1)
      let innerData := sa.extract (sa.size - n1) sa.size
      let innerSa ← sacak_recursive (data.length + 2) innerSa innerData
      pure (innerSa ++ innerData)
    else
      foldRangeM n1
        (fun sa i => do
          let v ← aget sa (s1_offset + i)
          aset sa v i)
        sa
  let sa ← get_suffix_array_lms_zero sa data n1 s1_offset
  let sa ← put_suffix_zero sa data n1
  let sa ← induce_suffix_array_l_zero sa data true
  induce_suffix_array_s_zero sa data true

/-- `sacak` from sacak.rs: empty input yields an empty array, a missing
trailing zero fails the `assert_eq!` (a panic with a diagnostic), and
otherwise the suffix array is built in place.  The function performs no
size check on `data`. -/
def sacak (data : List Nat) : Except RunErr (List Nat) :=
  if data.isEmpty then .ok []
  else if data.getLast? ≠ some 0 then .error .assertFail
  else
    let sa := Array.mkArray data.length 0
    if data.length ≠ 1 then (sacak_level_zero data sa).map (fun a => a.toList)
    else .ok sa.toList


/-- `Iterator::cmp` on byte iterators, as used by the comparator closures in
suffix_array.rs: lexicographic comparison where a strict prefix is smaller. -/
def lexCmp : List Nat → List Nat → Ordering
  | [], [] => .eq
  | [], _ :: _ => .lt
  | _ :: _, [] => .gt
  | x :: xs, y :: ys =>
      if x < y then .lt else if y < x then .gt else lexCmp xs ys

/-- `common_prefix_len` from suffix_array.rs. -/
def commonPrefixLen : List Nat → List Nat → Nat
  | x :: xs, y :: ys => if x = y then commonPrefixLen xs ys + 1 else 0
  | _, _ => 0

/-- Loop of Rust `slice::binary_search_by`: maintain a half-open window
`[left, right)`, probe its midpoint, and answer `Ok(mid)` on an equal
comparison or `Err(left)` with the insertion point once the window is
empty.  The comparator is given the probed index; the caller passes a
closure over the element at that index. -/
def binarySearchGo (f : Nat → Ordering) (left right : Nat) : Except Nat Nat :=
  if _h : left < right then
    let mid := left + (right - left) / 2
    match f mid with
    | .lt => binarySearchGo f (mid + 1) right
    | .gt => binarySearchGo f left mid
    | .eq => .ok mid
  else .error left
  termination_by right - left
  decreasing_by
  · omega
  · have : (right - left) / 2 < right - left := Nat.div_lt_self (by omega) (by omega)
    omega

/-- `slice::binary_search_by` over a `Vec<u32>`.  The probed index is always
in bounds, so the element handed to the comparator is total here. -/
def binarySearchBy (arr : List Nat) (cmp : Nat → Ordering) : Except Nat Nat :=
  binarySearchGo (fun i => cmp (arr.getD i 0)) 0 arr.length

/-- The `SuffixArray` struct from suffix_array.rs: the borrowed data and the
vector of suffix indices produced by `sacak`. -/
structure SuffixArray where
  data : List Nat
  inner : List Nat
  deriving DecidableEq, Repr

/-- `SuffixArray::new` from suffix_array.rs: builds the index with `sacak`
over the borrowed data. -/
def SuffixArray.new (data : List Nat) : Except RunErr SuffixArray :=
  (sacak data).map (fun inner => SuffixArray.mk data inner)

/-- The comparator used by `longest_match` and `contains`: the suffix at
`suffixIndex`, truncated to the pattern length, against the pattern.
Rust would panic if `suffixIndex` exceeded the data length; the model
totalises the slice with `List.drop`, which coincides with the source
whenever the suffix array indices are in bounds. -/
def suffixCmp (data pattern : List Nat) (suffixIndex : Nat) : Ordering :=
  lexCmp ((data.drop suffixIndex).take pattern.length) pattern

/-- The `substring!` macro of `longest_match`: builds the result from a
position and a length, panicking (as the Rust slice does) when the range
falls outside the data. -/
def mkSubstring (data : List Nat) (position len : Nat) : Except RunErr (Nat × Nat) :=
  if position + len ≤ data.length then .ok (position, len) else .error .oob

/-- `SuffixArray::longest_match` from suffix_array.rs.  The result models
the returned `Substring` as its `position` together with the length of its
`data` slice; `sorted_pos - 1` at `sorted_pos = 0` is the `usize` underflow
panic of the source. -/
def longestMatch (sa : SuffixArray) (pattern : List Nat) : Except RunErr (Option (Nat × Nat)) :=
  match binarySearchBy sa.inner (suffixCmp sa.data pattern) with
  | .ok i => do
      let position ← lidx sa.inner i
      let sub ← mkSubstring sa.data position (commonPrefixLen (sa.data.drop position) pattern)
      .ok (some sub)
  | .error sortedPos =>
      if sortedPos = 0 then .error .oob
      else do
        let leftIdx ← lidx sa.inner (sortedPos - 1)
        let leftLcpLen := commonPrefixLen (sa.data.drop leftIdx) pattern
        let rightLcpLen :=
          match sa.inner.get? sortedPos with
          | none => 0
          | some p => commonPrefixLen (sa.data.drop p) pattern
        match compare leftLcpLen rightLcpLen with
        | .lt => do
            let rightIdx ← lidx sa.inner sortedPos
            let sub ← mkSubstring sa.data rightIdx rightLcpLen
            .ok (some sub)
        | .eq =>
            if leftLcpLen = 0 then .ok none
            else do
              let sub ← mkSubstring sa.data leftIdx leftLcpLen
              .ok (some sub)
        | .gt => do
            let sub ← mkSubstring sa.data leftIdx leftLcpLen
            .ok (some sub)

end Sufsort

namespace Ina

/-- The `Match` struct from bsdiff.rs. -/
structure Match where
  add_old_pos : Nat
  add_new_pos : Nat
  add_len : Nat
  copy_end : Nat
  deriving DecidableEq, Repr

/-- `Match::copy_pos` from bsdiff.rs. -/
def Match.copy_pos (m : Match) : Nat := m.add_new_pos + m.add_len

/-- The `Control` struct from bsdiff.rs: the add bytes, the copy bytes and
the signed seek. -/
structure Control where
  add : List Nat
  copy : List Nat
  seek : Int
  deriving DecidableEq, Repr

/-- Reinterpretation `usize as i64` (two's complement, 64-bit). -/
def toI64 (n : Nat) : Int :=
  if n % 2 ^ 64 < 2 ^ 63 then (n % 2 ^ 64 : Nat) else (n % 2 ^ 64 : Nat) - (2 ^ 64 : Int)

/-- One control emitted by `ControlProducer::next` for the match
`prev`, with `next` the lookahead match (if any).  Byte lookups in the add
region are totalised with `getD`; the source panics out of bounds, and the
match maker only produces in-range regions. -/
def mkControl (old new : List Nat) (prev : Match) (next : Option Match) : Control where
  add := (List.range prev.add_len).map fun i =>
    wsub (new.getD (prev.add_new_pos + i) 0) (old.getD (prev.add_old_pos + i) 0)
  copy := (new.take prev.copy_end).drop prev.copy_pos
  seek :=
    match next with
    | none => 0
    | some m => toI64 m.add_old_pos - toI64 (prev.add_old_pos + prev.add_len)

/-- Drains `ControlProducer` given the matches still to be pulled from the
match iterator, with `prev` the stored `prev_match`. -/
def controlsGo (old new : List Nat) : Match → List Match → List Control
  | prev, [] => [mkControl old new prev none]
  | prev, m :: ms => mkControl old new prev (some m) :: controlsGo old new m ms

/-- The full sequence of controls `ControlProducer` yields when the match
iterator yields exactly `ms`: starting from `prev_match = None`, the first
`next()` pulls one match (yielding nothing when the iterator is empty) and
every emission looks one match ahead for its seek. -/
def controlProducer (old new : List Nat) : List Match → List Control
  | [] => []
  | m :: ms => controlsGo old new m ms

/-- `DEFAULT_BUF_SIZE` from patch.rs: the length of the scratch buffer that
both `Patcher` constructors allocate with `vec![0; DEFAULT_BUF_SIZE]`.  Only
its length affects behavior, so the model keeps just the constant. -/
def DEFAULT_BUF_SIZE : Nat := 8192

/-- The `PatcherState` enum from patch.rs. -/
inductive PatcherState where
  | atNextControl
  | add (remaining : Nat)
  | copy (remaining : Nat)
  deriving DecidableEq, Repr

/-- The `Patcher` struct from patch.rs.  The generic `O: Read + Seek` old
reader is modelled as a cursor over a byte list (`oldData` at `oldPos`), and
the zstd `Decoder` wrapped around the patch source as the byte list
`stream` of its decompressed output, per the spec's treatment of the codec
as an opaque sequential byte stream. -/
structure Patcher where
  oldData : List Nat
  oldPos : Nat
  stream : List Nat
  state : PatcherState
  deriving DecidableEq, Repr

/-- `read_exact` on the old cursor: yields the `n` bytes at the cursor or
fails with `UnexpectedEof` when fewer remain; a request for zero bytes
succeeds even with the cursor seeked past the end, as `read_exact` on an
empty buffer performs no read. -/
def oldReadExact (data : List Nat) (pos n : Nat) : Except IoErr (List Nat) :=
  if n ≤ data.length - pos then .ok ((data.drop pos).take n) else .error .unexpectedEof

/-- `seek(SeekFrom::Current(delta))` on the old cursor: a negative target
position is an error; seeking beyond the end is allowed. -/
def oldSeek (pos : Nat) (delta : Int) : Except IoErr Nat :=
  if (pos : Int) + delta < 0 then .error .invalidSeek
  else .ok ((pos : Int) + delta).toNat

/-- `read_exact` on the decompressed patch stream: the bytes read and the
remaining stream, or `UnexpectedEof`. -/
def streamReadExact (s : List Nat) (n : Nat) : Except IoErr (List Nat × List Nat) :=
  if n ≤ s.length then .ok (s.take n, s.drop n) else .error .unexpectedEof

/-- `Patcher::read` from patch.rs, with `k` the length of the caller's
buffer; returns the bytes written into the buffer (the source's return
value `read_total` is their count) together with the patcher afterwards.

The loop body is followed faithfully: at a control boundary the add length
varint is read, a clean end of the decompressed stream there ends the read
(`break`), and any other varint failure is an error; in the add state up to
`min(add_len, buf.len(), DEFAULT_BUF_SIZE)` bytes are taken from both the
old reader and the patch and added byte-wise wrapping; in the copy state up
to `min(copy_len, buf.len())` bytes come straight from the patch, and a
finished copy reads the seek varint and applies it to the old cursor. -/
def patcherRead (p : Patcher) (k : Nat) : Except IoErr (List Nat × Patcher) :=
  if hk : k = 0 then .ok ([], p)
  else
    match p.state with
    | .atNextControl =>
        match hv : readVarint p.stream with
        | .ok (addLen, rest) =>
            patcherRead { p with stream := rest, state := .add addLen } k
        | .error .unexpectedEof => .ok ([], p)
        | .error e => .error e
    | .add addLen =>
        let m := min (min addLen k) DEFAULT_BUF_SIZE
        match oldReadExact p.oldData p.oldPos m with
        | .error e => .error e
        | .ok outChunk =>
          match hs : streamReadExact p.stream m with
          | .error e => .error e
          | .ok (diffChunk, rest) =>
            let written := List.zipWith wadd outChunk diffChunk
            if hadd : addLen = m then
              match hv : readVarint rest with
              | .error e => .error e
              | .ok (copyLen, rest2) =>
                  (patcherRead { p with oldPos := p.oldPos + m, stream := rest2, state := .copy copyLen } (k - m)).map
                    fun r => (written ++ r.1, r.2)
            else
              (patcherRead { p with oldPos := p.oldPos + m, stream := rest, state := .add (addLen - m) } (k - m)).map
                fun r => (written ++ r.1, r.2)
    | .copy copyLen =>
        let m := min copyLen k
        match hs : streamReadExact p.stream m with
        | .error e => .error e
        | .ok (chunk, rest) =>
          if hcopy : copyLen = m then
            match hv2 : readVarintSigned rest with
            | .error e => .error e
            | .ok (seek, rest2) =>
              match oldSeek p.oldPos seek with
              | .error e => .error e
              | .ok pos2 =>
                  (patcherRead { p with oldPos := pos2, stream := rest2, state := .atNextControl } (k - m)).map
                    fun r => (chunk ++ r.1, r.2)
          else
            (patcherRead { p with stream := rest, state := .copy (copyLen - m) } (k - m)).map
              fun r => (chunk ++ r.1, r.2)
  termination_by p.stream.length + k
  decreasing_by
  all_goals
    have hcons : ∀ budget shift acc s v r,
        readVarintLoop budget shift acc s = .ok (v, r) → r.length < s.length := by
      intro budget
      induction budget with
      | zero =>
          intro shift acc s v r h
          cases s <;> simp [readVarintLoop] at h
      | succ n ih =>
          intro shift acc s v r h
          cases s with
          | nil => simp [readVarintLoop] at h
          | cons b bs =>
              simp only [readVarintLoop] at h
              split at h
              · have h2 : bs = r := congrArg Prod.snd (Except.ok.inj h)
                simp [← h2]
              · exact Nat.lt_trans (ih _ _ _ _ _ h) (by simp)
  all_goals
    have hcons1 : ∀ s v r, readVarint s = .ok (v, r) → r.length < s.length := by
      intro s v r h
      exact hcons _ _ _ _ _ _ h
  all_goals
    have hcons2 : ∀ s v r, readVarintSigned s = .ok (v, r) → r.length < s.length := by
      intro s v r h
      simp only [readVarintSigned] at h
      rcases h3 : readVarint s with e | nr
      · rw [h3] at h
        exact absurd h (by simp)
      · rw [h3] at h
        have h6 : nr.2 = r := congrArg Prod.snd (Except.ok.inj h)
        exact h6 ▸ hcons1 s nr.1 nr.2 (by rw [h3])
  all_goals
    have hdrop : ∀ s n a r, streamReadExact s n = .ok (a, r) → r.length + n ≤ s.length := by
      intro s n a r h
      simp only [streamReadExact] at h
      split at h
      · have h6 : s.drop n = r := congrArg Prod.snd (Except.ok.inj h)
        rw [← h6]
        simp
        omega
      · exact absurd h (by simp)
  · exact Nat.add_lt_add_right (hcons1 _ _ _ hv) k
  · have h5 := hcons1 _ _ _ hv
    have h6 := hdrop _ _ _ _ hs
    omega
  · have h6 := hdrop _ _ _ _ hs
    have hm8 : min (min addLen k) DEFAULT_BUF_SIZE = min (min addLen k) 8192 := rfl
    simp only [inf_eq_min] at *
    omega
  · have h5 := hcons2 _ _ _ hv2
    have h6 := hdrop _ _ _ _ hs
    omega
  · have h6 := hdrop _ _ _ _ hs
    simp only [inf_eq_min] at *
    omega
/-- How the maximal output of a patcher ends: a clean end of the
decompressed stream at a control boundary, or an I/O failure. -/
inductive PatchTerm where
  | clean
  | fail (e : IoErr)
  deriving DecidableEq, Repr

/-- Fuelled worker for `patcherTrace`; the fuel only bounds the recursion
depth and `patcherTrace` always supplies enough. -/
def patcherTraceGo : Nat → Patcher → List Nat × PatchTerm
  | 0, _ => ([], .fail .unexpectedEof)
  | fuel + 1, p =>
    match p.state with
    | .atNextControl =>
        match readVarint p.stream with
        | .ok (addLen, rest) =>
            patcherTraceGo fuel { p with stream := rest, state := .add addLen }
        | .error .unexpectedEof => ([], .clean)
        | .error e => ([], .fail e)
    | .add addLen =>
        let q := min (min addLen (p.oldData.length - p.oldPos)) p.stream.length
        let outBytes := List.zipWith wadd ((p.oldData.drop p.oldPos).take q) (p.stream.take q)
        if q = addLen then
          match readVarint (p.stream.drop q) with
          | .ok (copyLen, rest2) =>
              let r := patcherTraceGo fuel { p with oldPos := p.oldPos + q, stream := rest2, state := .copy copyLen }
              (outBytes ++ r.1, r.2)
          | .error e => (outBytes, .fail e)
        else (outBytes, .fail .unexpectedEof)
    | .copy copyLen =>
        let q := min copyLen p.stream.length
        let outBytes := p.stream.take q
        if q = copyLen then
          match readVarintSigned (p.stream.drop q) with
          | .ok (seek, rest2) =>
              match oldSeek p.oldPos seek with
              | .ok pos2 =>
                  let r := patcherTraceGo fuel { p with oldPos := pos2, stream := rest2, state := .atNextControl }
                  (outBytes ++ r.1, r.2)
              | .error e => (outBytes, .fail e)
          | .error e => (outBytes, .fail e)
        else (outBytes, .fail .unexpectedEof)

/-- Proof device for relating pulls of different buffer sizes (not a model
of source code): the maximal byte sequence a patcher can deliver across
successful `read` calls, together with how the sequence ends.  An add
region delivers as many bytes as the remaining add length, the old reader
and the patch stream jointly cover; a region that cannot complete ends the
trace with the `UnexpectedEof` its `read_exact` raises. -/
def patcherTrace (p : Patcher) : List Nat × PatchTerm :=
  patcherTraceGo (p.stream.length + 1) p

/-- The loop of `io::copy` in `patch()`: pull from the patcher with a
buffer of `k` bytes until a pull returns no bytes, concatenating everything
pulled.  `fuel` bounds the number of pulls purely as an embedding artefact;
`patcherRun` supplies `stream.length + 1`, which is enough because every
pull with a nonempty result consumes patch stream bytes (the zero-fuel
branch is never reached then). -/
def patcherRunGo (fuel : Nat) (p : Patcher) (k : Nat) : Except IoErr (List Nat) :=
  match fuel with
  | 0 => .ok []
  | fuel + 1 =>
      match patcherRead p k with
      | .error e => .error e
      | .ok (out, p2) =>
          if out.isEmpty then .ok []
          else
            match patcherRunGo fuel p2 k with
            | .error e => .error e
            | .ok rest => .ok (out ++ rest)

/-- Reading the patcher to exhaustion with pull buffer size `k`. -/
def patcherRun (p : Patcher) (k : Nat) : Except IoErr (List Nat) :=
  patcherRunGo (p.stream.length + 1) p k

/-- The zstd compression envelope is outside this repository and the spec
treats it as an opaque streaming codec exposing a sequential byte stream;
it is modelled as the identity on the payload bytes. -/
def zstdEncode (payload : List Nat) : List Nat := payload

/-- Inverse direction of the opaque codec model; see `zstdEncode`. -/
def zstdDecode (compressed : List Nat) : List Nat := compressed

/-- `Patcher::new` from patch.rs: read the header, then hand the remaining
patch bytes to the decoder; the fresh patcher starts at `AtNextControl`
with the old cursor at 0. -/
def patcherNew (oldData patchBytes : List Nat) : Except PatchError Patcher :=
  match readHeader patchBytes with
  | .error e => .error e
  | .ok (_, rest) =>
      .ok { oldData := oldData, oldPos := 0, stream := zstdDecode rest,
            state := .atNextControl }

/-- `patch()` from patch.rs: build a `Patcher` over the old reader and the
patch source and `io::copy` it into the sink.  The returned list holds the
bytes written; the source returns their count. -/
def patchFn (oldData patchBytes : List Nat) : Except PatchError (List Nat) :=
  match patcherNew oldData patchBytes with
  | .error e => .error e
  | .ok p => (patcherRun p DEFAULT_BUF_SIZE).mapError .io

/-- `NON_MATCHING_BYTES_THRESHOLD` from bsdiff.rs. -/
def NON_MATCHING_BYTES_THRESHOLD : Nat := 8

/-- The mutable cursor fields of the `MatchMaker` struct from bsdiff.rs;
the borrowed `old`, `new` and `old_index` fields are passed alongside. -/
structure MatchMaker where
  scan : Nat
  len : Nat
  pos : Nat
  last_scan : Nat
  last_pos : Nat
  last_offset : Int
  deriving DecidableEq, Repr

/-- The cursor state set up by `MatchMaker::new`. -/
def MatchMaker.init : MatchMaker :=
  { scan := 0, len := 0, pos := 0, last_scan := 0, last_pos := 0, last_offset := 0 }

/-- The guarded probe `((x as isize + off) as usize) < old.len() &&
old[((x as isize + off) as usize)] == new[x]` from `MatchMaker::next`: a
negative sum casts to an enormous usize and fails the bound check. -/
def mmAgree (old new : List Nat) (x : Nat) (off : Int) : Except RunErr Bool := do
  if 0 ≤ (x : Int) + off ∧ (x : Int) + off < (old.length : Int) then do
    let a ← lidx old ((x : Int) + off).toNat
    let b ← lidx new x
    pure (decide (a = b))
  else
    pure false

/-- The registers of the inner `while self.scan < self.new.len()` loop of
`MatchMaker::next`; `broke` records that the loop exited through `break`.
`old_score` is a usize that can wrap below zero in release builds; since
both of its uses compare wrapped values consistently, it is modelled as a
signed integer. -/
structure MMInner where
  scan : Nat
  pos : Nat
  len : Nat
  scsc : Nat
  old_score : Int
  broke : Bool
  deriving DecidableEq, Repr

/-- One iteration of the inner loop of `MatchMaker::next`: probe the
suffix array, accumulate the old score over `scsc`, and either `break` or
advance `scan` by one. -/
def mmInnerStep (old new : List Nat) (sa : Sufsort.SuffixArray) (off : Int) (s : MMInner) :
    Except RunErr MMInner := do
  let m ← Sufsort.longestMatch sa (new.drop s.scan)
  let (pos, len) := match m with | some pl => pl | none => (0, 0)
  let acc ← Sufsort.whileCM (new.length + 2)
    (fun (t : Nat × Int) => pure (decide (t.1 < s.scan + len)))
    (fun (t : Nat × Int) => do
      let agree ← mmAgree old new t.1 off
      pure (t.1 + 1, if agree then t.2 + 1 else t.2))
    (s.scsc, s.old_score)
  let (scsc, old_score) := acc
  if ((len : Int) = old_score ∧ len ≠ 0) ∨
      (len : Int) > old_score + (NON_MATCHING_BYTES_THRESHOLD : Int) then
    pure { scan := s.scan, pos := pos, len := len, scsc := scsc,
           old_score := old_score, broke := true }
  else do
    let agree ← mmAgree old new s.scan off
    let old_score := if agree then old_score - 1 else old_score
    pure { scan := s.scan + 1, pos := pos, len := len, scsc := scsc,
           old_score := old_score, broke := false }

/-- The inner loop of `MatchMaker::next` run to its exit. -/
def mmInnerLoop (old new : List Nat) (sa : Sufsort.SuffixArray) (off : Int) (s : MMInner) :
    Except RunErr MMInner :=
  Sufsort.whileCM (new.length + 2)
    (fun s => pure (!s.broke && decide (s.scan < new.length)))
    (mmInnerStep old new sa off)
    s

/-- The forward extension scan of `MatchMaker::next`, producing
`len_forward`. -/
def mmExtendForward (old new : List Nat) (last_scan last_pos scan : Nat) :
    Except RunErr Nat := do
  let st ← Sufsort.whileCM (new.length + old.length + 2)
    (fun (t : Int × Int × Nat × Nat) =>
      pure (decide (last_scan + t.2.2.2 < scan) && decide (last_pos + t.2.2.2 < old.length)))
    (fun (t : Int × Int × Nat × Nat) => do
      let (s, sf, lenF, i) := t
      let a ← lidx old (last_pos + i)
      let b ← lidx new (last_scan + i)
      let s := if a = b then s + 1 else s
      let i := i + 1
      if s * 2 - (i : Int) > sf * 2 - (lenF : Int) then
        pure (s, s, i, i)
      else
        pure (s, sf, lenF, i))
    (0, 0, 0, 0)
  pure st.2.2.1

/-- The backward extension scan of `MatchMaker::next`, producing
`len_back`; unlike the forward scan, the best-so-far check precedes the
increment of `i`. -/
def mmExtendBack (old new : List Nat) (last_scan scan pos : Nat) :
    Except RunErr Nat := do
  let st ← Sufsort.whileCM (new.length + old.length + 2)
    (fun (t : Int × Int × Nat × Nat) =>
      pure (decide (scan ≥ last_scan + t.2.2.2) && decide (pos ≥ t.2.2.2)))
    (fun (t : Int × Int × Nat × Nat) => do
      let (s, sb, lenB, i) := t
      let a ← lidx old (pos - i)
      let b ← lidx new (scan - i)
      let s := if a = b then s + 1 else s
      let (sb, lenB) := if s * 2 - (i : Int) > sb * 2 - (lenB : Int) then (s, i) else (sb, lenB)
      pure (s, sb, lenB, i + 1))
    (0, 0, 0, 0)
  pure st.2.2.1

/-- The overlap-splitting pass of `MatchMaker::next`, adjusting
`len_forward` and `len_back` when the extensions overlap. -/
def mmOverlap (old new : List Nat) (last_scan last_pos scan pos lenF lenB : Nat) :
    Except RunErr (Nat × Nat) := do
  if last_scan + lenF > scan - lenB then do
    let overlap := (last_scan + lenF) - (scan - lenB)
    let st ← Sufsort.whileCM (overlap + 2)
      (fun (t : Int × Int × Nat × Nat) => pure (decide (t.2.2.2 < overlap)))
      (fun (t : Int × Int × Nat × Nat) => do
        let (s, ss, lens, i) := t
        let a1 ← lidx new (last_scan + lenF - overlap + i)
        let b1 ← lidx old (last_pos + lenF - overlap + i)
        let s := if a1 = b1 then s + 1 else s
        let a2 ← lidx new (scan - lenB + i)
        let b2 ← lidx old (pos - lenB + i)
        let s := if a2 = b2 then s - 1 else s
        let (ss, lens) := if s > ss then (s, i + 1) else (ss, lens)
        pure (s, ss, lens, i + 1))
      (0, 0, 0, 0)
    let lens := st.2.2.1
    pure (lenF + lens - overlap, lenB - lens)
  else
    pure (lenF, lenB)

/-- `MatchMaker::next` from bsdiff.rs.  The `fuel` bounds the iterations
of the outer `while` (each of which either yields, returns `None`, or
skips a clean match of at least one byte) and is always ample. -/
def mmNext (old new : List Nat) (sa : Sufsort.SuffixArray) :
    Nat → MatchMaker → Except RunErr (Option (Match × MatchMaker))
  | 0, _ => .error .fuelOut
  | fuel + 1, st => do
      if st.scan < new.length then do
        let scan0 := st.scan + st.len
        let inner ← mmInnerLoop old new sa st.last_offset
          { scan := scan0, pos := st.pos, len := st.len, scsc := scan0,
            old_score := 0, broke := false }
        let scan := inner.scan
        let pos := inner.pos
        let len := inner.len
        if (len : Int) ≠ inner.old_score ∨ scan = new.length then do
          let lenF ← mmExtendForward old new st.last_scan st.last_pos scan
          let lenB ←
            if scan < new.length then
              mmExtendBack old new st.last_scan scan pos
            else
              pure 0
          let (lenF, lenB) ← mmOverlap old new st.last_scan st.last_pos scan pos lenF lenB
          pure (some
            ({ add_old_pos := st.last_pos, add_new_pos := st.last_scan,
               add_len := lenF, copy_end := scan - lenB },
             { scan := scan, len := len, pos := pos,
               last_scan := scan - lenB, last_pos := pos - lenB,
               last_offset := (pos : Int) - (scan : Int) }))
        else
          mmNext old new sa fuel { st with scan := scan, len := len, pos := pos }
      else
        pure none

/-- Draining the match iterator, as the control producer does.  Every
yield strictly increases `scan + len`, which stays at most `new.length`,
so `new.length + 2` pulls always suffice. -/
def mmRun (old new : List Nat) (sa : Sufsort.SuffixArray) :
    Nat → MatchMaker → Except RunErr (List Match)
  | 0, _ => .error .fuelOut
  | fuel + 1, st => do
      match ← mmNext old new sa (new.length + 2) st with
      | none => pure []
      | some (m, st2) => do
          let rest ← mmRun old new sa fuel st2
          pure (m :: rest)

/-- The full match sequence yielded by `MatchMaker::new(old, new)`. -/
def matchMaker (old new : List Nat) : Except RunErr (List Match) := do
  let sa ← Sufsort.SuffixArray.new old
  mmRun old new sa (new.length + 2) MatchMaker.init

/-- One control as `diff_with_config` writes it into the compressed
payload: unsigned varints for the add and copy lengths around the raw
bytes, then the zigzag varint of the seek. -/
def controlBytes (c : Control) : List Nat :=
  varintEncode c.add.length ++ c.add ++ varintEncode c.copy.length ++ c.copy ++
    varintEncodeSigned c.seek

/-- The decompressed payload `diff_with_config` hands the zstd encoder:
the concatenated encodings of every control the control producer yields. -/
def diffPayload (old new : List Nat) : Except RunErr (List Nat) := do
  let ms ← matchMaker old new
  pure (((controlProducer old new ms).map controlBytes).foldr (fun a b => a ++ b) [])

/-- The byte stream written by `diff_with_config`: the little-endian magic
word, the little-endian version word, then the compressed payload.  No
`data_offset` varint is written between the version and the payload. -/
def diffStream (old new : List Nat) : Except RunErr (List Nat) := do
  let payload ← diffPayload old new
  pure (u32leBytes MAGIC ++ u32leBytes VERSION ++ zstdEncode payload)


end Ina

/-!
Theorems.  Everything from here on is a proof about the definitions above.
-/

namespace Ina

theorem controlsGo_length (old new : List Nat) (prev : Match) (ms : List Match) :
    (controlsGo old new prev ms).length = ms.length + 1 := by
  induction ms generalizing prev with
  | nil => rfl
  | cons m ms ih => simp [controlsGo, ih]

theorem controlProducer_length (old new : List Nat) (ms : List Match) :
    (controlProducer old new ms).length = ms.length := by
  cases ms with
  | nil => rfl
  | cons m ms => simp [controlProducer, controlsGo_length]

theorem controlsGo_get? (old new : List Nat) (prev : Match) (ms : List Match) (i : Nat) :
    (controlsGo old new prev ms).get? i =
      ((prev :: ms).get? i).map fun p => mkControl old new p (ms.get? i) := by
  induction ms generalizing prev i with
  | nil =>
      cases i with
      | zero => rfl
      | succ j => cases j <;> rfl
  | cons m ms ih =>
      cases i with
      | zero => rfl
      | succ j => simpa [controlsGo] using ih m j

theorem controlProducer_get? (old new : List Nat) (ms : List Match) (i : Nat) :
    (controlProducer old new ms).get? i =
      (ms.get? i).map fun p => mkControl old new p (ms.get? (i + 1)) := by
  cases ms with
  | nil => simp [controlProducer]
  | cons m ms => simpa [controlProducer] using controlsGo_get? old new m ms i

theorem oldReadExact_length {data : List Nat} {pos n : Nat} {out : List Nat}
    (h : oldReadExact data pos n = .ok out) : out.length = n := by
  simp only [oldReadExact] at h
  split at h
  · have h2 := Except.ok.inj h
    rw [← h2]
    simp only [List.length_take, List.length_drop]
    omega
  · exact absurd h (by simp)

theorem streamReadExact_ok {s : List Nat} {n : Nat} {a r : List Nat}
    (h : streamReadExact s n = .ok (a, r)) :
    a.length = n ∧ r = s.drop n ∧ n ≤ s.length := by
  simp only [streamReadExact] at h
  split at h
  · have h2 := Except.ok.inj h
    have ha : s.take n = a := congrArg Prod.fst h2
    have hr : s.drop n = r := congrArg Prod.snd h2
    refine ⟨?_, hr.symm, by omega⟩
    rw [← ha]
    simp only [List.length_take]
    omega
  · exact absurd h (by simp)

theorem patcherRead_zero (p : Patcher) : patcherRead p 0 = .ok ([], p) := by
  rw [patcherRead.eq_def]
  simp

theorem patcherRead_atNext_ok {p : Patcher} {k addLen : Nat} {rest : List Nat}
    (hk : k ≠ 0) (hst : p.state = .atNextControl)
    (hv : readVarint p.stream = .ok (addLen, rest)) :
    patcherRead p k =
      patcherRead { p with stream := rest, state := .add addLen } k := by
  rw [patcherRead.eq_def]
  simp only [dif_neg hk, hst]
  split
  · rename_i addLen2 rest2 heq
    rw [hv] at heq
    injection heq with h3
    injection h3 with h4 h5
    rw [h4, h5]
  · rename_i heq
    rw [hv] at heq
    exact absurd heq (by simp)
  · rename_i e hne heq
    rw [hv] at heq
    exact absurd heq (by simp)

theorem patcherRead_atNext_eof {p : Patcher} {k : Nat}
    (hk : k ≠ 0) (hst : p.state = .atNextControl)
    (hv : readVarint p.stream = .error .unexpectedEof) :
    patcherRead p k = .ok ([], p) := by
  rw [patcherRead.eq_def]
  simp only [dif_neg hk, hst]
  split
  · rename_i addLen2 rest2 heq
    rw [hv] at heq
    exact absurd heq (by simp)
  · rfl
  · rename_i e hne heq
    rw [hv] at heq
    injection heq with h3
    exact absurd h3.symm (by simpa using hne)

theorem patcherRead_atNext_err {p : Patcher} {k : Nat} {e : IoErr}
    (hk : k ≠ 0) (hst : p.state = .atNextControl) (hne : e ≠ .unexpectedEof)
    (hv : readVarint p.stream = .error e) :
    patcherRead p k = .error e := by
  rw [patcherRead.eq_def]
  simp only [dif_neg hk, hst]
  split
  · rename_i addLen2 rest2 heq
    rw [hv] at heq
    exact absurd heq (by simp)
  · rename_i heq
    rw [hv] at heq
    injection heq with h3
    exact absurd h3 hne
  · rename_i e2 hne2 heq
    rw [hv] at heq
    injection heq with h3
    rw [h3]

theorem patcherRead_add_oldErr {p : Patcher} {k addLen : Nat} {e : IoErr}
    (hk : k ≠ 0) (hst : p.state = .add addLen)
    (hold : oldReadExact p.oldData p.oldPos (min (min addLen k) DEFAULT_BUF_SIZE) = .error e) :
    patcherRead p k = .error e := by
  rw [patcherRead.eq_def]
  simp only [dif_neg hk, hst, hold]

theorem patcherRead_add_streamErr {p : Patcher} {k addLen : Nat}
    {outChunk : List Nat} {e : IoErr}
    (hk : k ≠ 0) (hst : p.state = .add addLen)
    (hold : oldReadExact p.oldData p.oldPos (min (min addLen k) DEFAULT_BUF_SIZE) = .ok outChunk)
    (hs : streamReadExact p.stream (min (min addLen k) DEFAULT_BUF_SIZE) = .error e) :
    patcherRead p k = .error e := by
  rw [patcherRead.eq_def]
  simp only [dif_neg hk, hst, hold]
  split
  · rename_i e2 heq
    rw [hs] at heq
    injection heq with h3
    rw [h3]
  · rename_i pr heq
    rw [hs] at heq
    exact absurd heq (by simp)

theorem patcherRead_add_done {p : Patcher} {k addLen : Nat}
    {outChunk diffChunk rest : List Nat}
    (hk : k ≠ 0) (hst : p.state = .add addLen)
    (hold : oldReadExact p.oldData p.oldPos (min (min addLen k) DEFAULT_BUF_SIZE) = .ok outChunk)
    (hs : streamReadExact p.stream (min (min addLen k) DEFAULT_BUF_SIZE) = .ok (diffChunk, rest))
    (hadd : addLen = min (min addLen k) DEFAULT_BUF_SIZE)
    {copyLen : Nat} {rest2 : List Nat}
    (hv : readVarint rest = .ok (copyLen, rest2)) :
    patcherRead p k =
      (patcherRead { p with oldPos := p.oldPos + min (min addLen k) DEFAULT_BUF_SIZE, stream := rest2, state := .copy copyLen } (k - min (min addLen k) DEFAULT_BUF_SIZE)).map
        fun r => (List.zipWith wadd outChunk diffChunk ++ r.1, r.2) := by
  rw [patcherRead.eq_def]
  simp only [dif_neg hk, hst, hold]
  split
  · rename_i e2 heq
    rw [hs] at heq
    exact absurd heq (by simp)
  · rename_i a2 r2 heq
    rw [hs] at heq
    injection heq with h3
    have h4 : diffChunk = a2 := congrArg Prod.fst h3
    have h5 : rest = r2 := congrArg Prod.snd h3
    rw [dif_pos (by rw [← h4, ← h5] at *; exact hadd)]
    split
    · rename_i e2 heq2
      rw [← h5, hv] at heq2
      exact absurd heq2 (by simp)
    · rename_i copyLen2 rest3 heq2
      rw [← h5, hv] at heq2
      injection heq2 with h6
      injection h6 with h7 h8
      rw [← h4, ← h7, ← h8]

theorem patcherRead_add_done_verr {p : Patcher} {k addLen : Nat}
    {outChunk diffChunk rest : List Nat} {e : IoErr}
    (hk : k ≠ 0) (hst : p.state = .add addLen)
    (hold : oldReadExact p.oldData p.oldPos (min (min addLen k) DEFAULT_BUF_SIZE) = .ok outChunk)
    (hs : streamReadExact p.stream (min (min addLen k) DEFAULT_BUF_SIZE) = .ok (diffChunk, rest))
    (hadd : addLen = min (min addLen k) DEFAULT_BUF_SIZE)
    (hv : readVarint rest = .error e) :
    patcherRead p k = .error e := by
  rw [patcherRead.eq_def]
  simp only [dif_neg hk, hst, hold]
  split
  · rename_i e2 heq
    rw [hs] at heq
    exact absurd heq (by simp)
  · rename_i a2 r2 heq
    rw [hs] at heq
    injection heq with h3
    have h4 : diffChunk = a2 := congrArg Prod.fst h3
    have h5 : rest = r2 := congrArg Prod.snd h3
    rw [dif_pos (by rw [← h4, ← h5] at *; exact hadd)]
    split
    · rename_i e2 heq2
      rw [← h5, hv] at heq2
      injection heq2 with h6
      rw [h6]
    · rename_i copyLen2 rest3 heq2
      rw [← h5, hv] at heq2
      exact absurd heq2 (by simp)

theorem patcherRead_add_more {p : Patcher} {k addLen : Nat}
    {outChunk diffChunk rest : List Nat}
    (hk : k ≠ 0) (hst : p.state = .add addLen)
    (hold : oldReadExact p.oldData p.oldPos (min (min addLen k) DEFAULT_BUF_SIZE) = .ok outChunk)
    (hs : streamReadExact p.stream (min (min addLen k) DEFAULT_BUF_SIZE) = .ok (diffChunk, rest))
    (hadd : addLen ≠ min (min addLen k) DEFAULT_BUF_SIZE) :
    patcherRead p k =
      (patcherRead { p with oldPos := p.oldPos + min (min addLen k) DEFAULT_BUF_SIZE, stream := rest, state := .add (addLen - min (min addLen k) DEFAULT_BUF_SIZE) } (k - min (min addLen k) DEFAULT_BUF_SIZE)).map
        fun r => (List.zipWith wadd outChunk diffChunk ++ r.1, r.2) := by
  rw [patcherRead.eq_def]
  simp only [dif_neg hk, hst, hold]
  split
  · rename_i e2 heq
    rw [hs] at heq
    exact absurd heq (by simp)
  · rename_i a2 r2 heq
    rw [hs] at heq
    injection heq with h3
    have h4 : diffChunk = a2 := congrArg Prod.fst h3
    have h5 : rest = r2 := congrArg Prod.snd h3
    rw [dif_neg (by rw [← h4, ← h5] at *; exact hadd)]
    rw [← h4, ← h5]

theorem patcherRead_copy_streamErr {p : Patcher} {k copyLen : Nat} {e : IoErr}
    (hk : k ≠ 0) (hst : p.state = .copy copyLen)
    (hs : streamReadExact p.stream (min copyLen k) = .error e) :
    patcherRead p k = .error e := by
  rw [patcherRead.eq_def]
  simp only [dif_neg hk, hst]
  split
  · rename_i e2 heq
    rw [hs] at heq
    injection heq with h3
    rw [h3]
  · rename_i pr heq
    rw [hs] at heq
    exact absurd heq (by simp)

theorem patcherRead_copy_done {p : Patcher} {k copyLen : Nat}
    {chunk rest : List Nat}
    (hk : k ≠ 0) (hst : p.state = .copy copyLen)
    (hs : streamReadExact p.stream (min copyLen k) = .ok (chunk, rest))
    (hcopy : copyLen = min copyLen k)
    {seek : Int} {rest2 : List Nat}
    (hv : readVarintSigned rest = .ok (seek, rest2))
    {pos2 : Nat} (hseek : oldSeek p.oldPos seek = .ok pos2) :
    patcherRead p k =
      (patcherRead { p with oldPos := pos2, stream := rest2, state := .atNextControl } (k - min copyLen k)).map
        fun r => (chunk ++ r.1, r.2) := by
  rw [patcherRead.eq_def]
  simp only [dif_neg hk, hst]
  split
  · rename_i e2 heq
    rw [hs] at heq
    exact absurd heq (by simp)
  · rename_i a2 r2 heq
    rw [hs] at heq
    injection heq with h3
    have h4 : chunk = a2 := congrArg Prod.fst h3
    have h5 : rest = r2 := congrArg Prod.snd h3
    rw [dif_pos (by exact hcopy)]
    split
    · rename_i e2 heq2
      rw [← h5, hv] at heq2
      exact absurd heq2 (by simp)
    · rename_i s2 r3 heq2
      rw [← h5, hv] at heq2
      injection heq2 with h6
      have h7 : seek = s2 := congrArg Prod.fst h6
      have h8 : rest2 = r3 := congrArg Prod.snd h6
      split
      · rename_i e2 heq3
        rw [← h7, hseek] at heq3
        exact absurd heq3 (by simp)
      · rename_i pos3 heq3
        rw [← h7, hseek] at heq3
        injection heq3 with h9
        rw [← h4, ← h8, ← h9]

theorem patcherRead_copy_verr {p : Patcher} {k copyLen : Nat}
    {chunk rest : List Nat} {e : IoErr}
    (hk : k ≠ 0) (hst : p.state = .copy copyLen)
    (hs : streamReadExact p.stream (min copyLen k) = .ok (chunk, rest))
    (hcopy : copyLen = min copyLen k)
    (hv : readVarintSigned rest = .error e) :
    patcherRead p k = .error e := by
  rw [patcherRead.eq_def]
  simp only [dif_neg hk, hst]
  split
  · rename_i e2 heq
    rw [hs] at heq
    exact absurd heq (by simp)
  · rename_i a2 r2 heq
    rw [hs] at heq
    injection heq with h3
    have h4 : chunk = a2 := congrArg Prod.fst h3
    have h5 : rest = r2 := congrArg Prod.snd h3
    rw [dif_pos (by exact hcopy)]
    split
    · rename_i e2 heq2
      rw [← h5, hv] at heq2
      injection heq2 with h6
      rw [h6]
    · rename_i s2 r3 heq2
      rw [← h5, hv] at heq2
      exact absurd heq2 (by simp)

theorem patcherRead_copy_seekErr {p : Patcher} {k copyLen : Nat}
    {chunk rest : List Nat}
    (hk : k ≠ 0) (hst : p.state = .copy copyLen)
    (hs : streamReadExact p.stream (min copyLen k) = .ok (chunk, rest))
    (hcopy : copyLen = min copyLen k)
    {seek : Int} {rest2 : List Nat}
    (hv : readVarintSigned rest = .ok (seek, rest2))
    {e : IoErr} (hseek : oldSeek p.oldPos seek = .error e) :
    patcherRead p k = .error e := by
  rw [patcherRead.eq_def]
  simp only [dif_neg hk, hst]
  split
  · rename_i e2 heq
    rw [hs] at heq
    exact absurd heq (by simp)
  · rename_i a2 r2 heq
    rw [hs] at heq
    injection heq with h3
    have h4 : chunk = a2 := congrArg Prod.fst h3
    have h5 : rest = r2 := congrArg Prod.snd h3
    rw [dif_pos (by exact hcopy)]
    split
    · rename_i e2 heq2
      rw [← h5, hv] at heq2
      exact absurd heq2 (by simp)
    · rename_i s2 r3 heq2
      rw [← h5, hv] at heq2
      injection heq2 with h6
      have h7 : seek = s2 := congrArg Prod.fst h6
      have h8 : rest2 = r3 := congrArg Prod.snd h6
      split
      · rename_i e2 heq3
        rw [← h7, hseek] at heq3
        injection heq3 with h9
        rw [h9]
      · rename_i pos3 heq3
        rw [← h7, hseek] at heq3
        exact absurd heq3 (by simp)

theorem patcherRead_copy_more {p : Patcher} {k copyLen : Nat}
    {chunk rest : List Nat}
    (hk : k ≠ 0) (hst : p.state = .copy copyLen)
    (hs : streamReadExact p.stream (min copyLen k) = .ok (chunk, rest))
    (hcopy : copyLen ≠ min copyLen k) :
    patcherRead p k =
      (patcherRead { p with stream := rest, state := .copy (copyLen - min copyLen k) } (k - min copyLen k)).map
        fun r => (chunk ++ r.1, r.2) := by
  rw [patcherRead.eq_def]
  simp only [dif_neg hk, hst]
  split
  · rename_i e2 heq
    rw [hs] at heq
    exact absurd heq (by simp)
  · rename_i a2 r2 heq
    rw [hs] at heq
    injection heq with h3
    have h4 : chunk = a2 := congrArg Prod.fst h3
    have h5 : rest = r2 := congrArg Prod.snd h3
    rw [dif_neg (by exact hcopy)]
    rw [← h4, ← h5]

theorem patcherRead_short {p : Patcher} {k : Nat} :
    ∀ (out : List Nat) (p2 : Patcher),
      patcherRead p k = .ok (out, p2) → out.length < k →
      p2.state = .atNextControl ∧ readVarint p2.stream = .error .unexpectedEof := by
  induction p, k using patcherRead.induct with
  | case1 =>
      intro out p2 h hshort
      rename_i p
      exact absurd hshort (by omega)
  | case2 =>
      intro out p2 h hshort
      rename_i p k hk hst addLen rest hv ih
      rw [patcherRead_atNext_ok hk hst hv] at h
      exact ih out p2 h hshort
  | case3 =>
      intro out p2 h hshort
      rename_i p k hk hst hv
      rw [patcherRead_atNext_eof hk hst hv] at h
      injection h with h2
      have hp2 : p = p2 := congrArg Prod.snd h2
      rw [← hp2]
      exact ⟨hst, hv⟩
  | case4 =>
      intro out p2 h hshort
      rename_i p k hk hst e hne hv
      rw [patcherRead_atNext_err hk hst (fun hh => hne hh) hv] at h
      exact absurd h (by simp)
  | case5 =>
      intro out p2 h hshort
      rename_i p k hk addLen hst m e hold
      rw [patcherRead_add_oldErr hk hst hold] at h
      exact absurd h (by simp)
  | case6 =>
      intro out p2 h hshort
      rename_i p k hk addLen hst m outChunk hold e hs
      rw [patcherRead_add_streamErr hk hst hold hs] at h
      exact absurd h (by simp)
  | case7 =>
      intro out p2 h hshort
      rename_i p k hk addLen hst m outChunk hold diffChunk rest hs hadd e hv
      rw [patcherRead_add_done_verr hk hst hold hs hadd hv] at h
      exact absurd h (by simp)
  | case8 =>
      intro out p2 h hshort
      rename_i p k hk addLen hst m outChunk hold diffChunk rest hs hadd copyLen rest2 hv ih
      rw [patcherRead_add_done hk hst hold hs hadd hv] at h
      cases hrec : patcherRead { p with oldPos := p.oldPos + min (min addLen k) DEFAULT_BUF_SIZE, stream := rest2, state := .copy copyLen } (k - min (min addLen k) DEFAULT_BUF_SIZE) with
      | error e =>
          rw [hrec] at h
          exact absurd h (by simp [Except.map])
      | ok r =>
          rw [hrec] at h
          simp only [Except.map] at h
          injection h with h2
          have hout : List.zipWith wadd outChunk diffChunk ++ r.1 = out := congrArg Prod.fst h2
          have hp2 : r.2 = p2 := congrArg Prod.snd h2
          have hlen1 := oldReadExact_length hold
          have hlen2 := (streamReadExact_ok hs).1
          have hr1 : r.1.length < k - min (min addLen k) DEFAULT_BUF_SIZE := by
            rw [← hout] at hshort
            simp only [List.length_append, List.length_zipWith, hlen1, hlen2] at hshort
            have hmk : min (min addLen k) DEFAULT_BUF_SIZE ≤ k := by
              have h6 := Nat.min_le_left (min addLen k) DEFAULT_BUF_SIZE
              have h7 := Nat.min_le_right addLen k
              omega
            simp only [Nat.min_self] at hshort
            omega
          have hres := ih r.1 r.2 (by rw [hrec]) hr1
          rw [hp2] at hres
          exact hres
  | case9 =>
      intro out p2 h hshort
      rename_i p k hk addLen hst m outChunk hold diffChunk rest hs hadd ih
      rw [patcherRead_add_more hk hst hold hs hadd] at h
      cases hrec : patcherRead { p with oldPos := p.oldPos + min (min addLen k) DEFAULT_BUF_SIZE, stream := rest, state := .add (addLen - min (min addLen k) DEFAULT_BUF_SIZE) } (k - min (min addLen k) DEFAULT_BUF_SIZE) with
      | error e =>
          rw [hrec] at h
          exact absurd h (by simp [Except.map])
      | ok r =>
          rw [hrec] at h
          simp only [Except.map] at h
          injection h with h2
          have hout : List.zipWith wadd outChunk diffChunk ++ r.1 = out := congrArg Prod.fst h2
          have hp2 : r.2 = p2 := congrArg Prod.snd h2
          have hlen1 := oldReadExact_length hold
          have hlen2 := (streamReadExact_ok hs).1
          have hr1 : r.1.length < k - min (min addLen k) DEFAULT_BUF_SIZE := by
            rw [← hout] at hshort
            simp only [List.length_append, List.length_zipWith, hlen1, hlen2] at hshort
            have hmk : min (min addLen k) DEFAULT_BUF_SIZE ≤ k := by
              have h6 := Nat.min_le_left (min addLen k) DEFAULT_BUF_SIZE
              have h7 := Nat.min_le_right addLen k
              omega
            simp only [Nat.min_self] at hshort
            omega
          have hres := ih r.1 r.2 (by rw [hrec]) hr1
          rw [hp2] at hres
          exact hres
  | case10 =>
      intro out p2 h hshort
      rename_i p k hk copyLen hst m e hs
      rw [patcherRead_copy_streamErr hk hst hs] at h
      exact absurd h (by simp)
  | case11 =>
      intro out p2 h hshort
      rename_i p k hk copyLen hst m chunk rest hs hcopy e hv2
      rw [patcherRead_copy_verr hk hst hs hcopy hv2] at h
      exact absurd h (by simp)
  | case12 =>
      intro out p2 h hshort
      rename_i p k hk copyLen hst m chunk rest hs hcopy seek rest2 hv2 e hseek
      rw [patcherRead_copy_seekErr hk hst hs hcopy hv2 hseek] at h
      exact absurd h (by simp)
  | case13 =>
      intro out p2 h hshort
      rename_i p k hk copyLen hst m chunk rest hs hcopy seek rest2 hv2 pos2 hseek ih
      rw [patcherRead_copy_done hk hst hs hcopy hv2 hseek] at h
      cases hrec : patcherRead { p with oldPos := pos2, stream := rest2, state := .atNextControl } (k - min copyLen k) with
      | error e =>
          rw [hrec] at h
          exact absurd h (by simp [Except.map])
      | ok r =>
          rw [hrec] at h
          simp only [Except.map] at h
          injection h with h2
          have hout : chunk ++ r.1 = out := congrArg Prod.fst h2
          have hp2 : r.2 = p2 := congrArg Prod.snd h2
          have hlen2 := (streamReadExact_ok hs).1
          have hr1 : r.1.length < k - min copyLen k := by
            rw [← hout] at hshort
            simp only [List.length_append, hlen2] at hshort
            have hmk : min copyLen k ≤ k := Nat.min_le_right copyLen k
            omega
          have hres := ih r.1 r.2 (by rw [hrec]) hr1
          rw [hp2] at hres
          exact hres
  | case14 =>
      intro out p2 h hshort
      rename_i p k hk copyLen hst m chunk rest hs hcopy ih
      rw [patcherRead_copy_more hk hst hs hcopy] at h
      cases hrec : patcherRead { p with stream := rest, state := .copy (copyLen - min copyLen k) } (k - min copyLen k) with
      | error e =>
          rw [hrec] at h
          exact absurd h (by simp [Except.map])
      | ok r =>
          rw [hrec] at h
          simp only [Except.map] at h
          injection h with h2
          have hout : chunk ++ r.1 = out := congrArg Prod.fst h2
          have hp2 : r.2 = p2 := congrArg Prod.snd h2
          have hlen2 := (streamReadExact_ok hs).1
          have hr1 : r.1.length < k - min copyLen k := by
            rw [← hout] at hshort
            simp only [List.length_append, hlen2] at hshort
            have hmk : min copyLen k ≤ k := Nat.min_le_right copyLen k
            omega
          have hres := ih r.1 r.2 (by rw [hrec]) hr1
          rw [hp2] at hres
          exact hres

/-- C10 (amended): a call to `Patcher::read` that returns `Ok(n)` with `n`
smaller than the caller's buffer length leaves the patcher at a control
boundary where reading the add-length varint from the decompressed stream
hits end of stream - either the stream is exhausted cleanly there or it
ends inside that varint; and a call with an empty buffer returns `Ok(0)`
without touching the old reader or the patch stream. -/
theorem C10_patcher_short_read :
    (∀ p k out p2, patcherRead p k = .ok (out, p2) → out.length < k →
       p2.state = .atNextControl ∧ readVarint p2.stream = .error .unexpectedEof) ∧
    (∀ p, patcherRead p 0 = .ok ([], p)) :=
  ⟨fun _ _ out p2 h hshort => patcherRead_short out p2 h hshort, patcherRead_zero⟩

unseal patcherRead in
/-- Witness for C10 (amended) at a concrete patcher: one continuation byte
0x85 in the stream, a 2-byte buffer, an empty read. -/
theorem C10_patcher_short_read_witness :
    (Patcher.mk [] 0 [133] .atNextControl).state = .atNextControl ∧
      readVarint (Patcher.mk [] 0 [133] .atNextControl).stream = .error .unexpectedEof :=
  C10_patcher_short_read.1 (Patcher.mk [] 0 [133] .atNextControl) 2 []
    (Patcher.mk [] 0 [133] .atNextControl) (by rfl) (by decide)

unseal patcherRead in
/-- Counterexample to C10 as stated: with the decompressed stream holding a
single continuation byte 0x80 at a control boundary, `read` with a 4-byte
buffer returns a short read of zero bytes, yet the decompressed stream was
not exhausted cleanly at the boundary during the call - the unconsumed
byte is still there, and end of stream was reached in the middle of the
add-length varint instead. -/
theorem C10_counterexample :
    patcherRead (Patcher.mk [] 0 [128] .atNextControl) 4 =
      .ok ([], Patcher.mk [] 0 [128] .atNextControl) ∧
    ((0 : Nat) < 4 ∧ ([128] : List Nat) ≠ []) :=
  ⟨by rfl, by decide⟩

theorem readVarint_consumes {s : List Nat} {v : Nat} {rest : List Nat}
    (h : readVarint s = .ok (v, rest)) : rest.length < s.length := by
  have hcons : ∀ budget shift acc s2 v2 r,
      readVarintLoop budget shift acc s2 = .ok (v2, r) → r.length < s2.length := by
    intro budget
    induction budget with
    | zero =>
        intro shift acc s2 v2 r h2
        cases s2 <;> simp [readVarintLoop] at h2
    | succ n ih =>
        intro shift acc s2 v2 r h2
        cases s2 with
        | nil => simp [readVarintLoop] at h2
        | cons b bs =>
            simp only [readVarintLoop] at h2
            split at h2
            · have h3 : bs = r := congrArg Prod.snd (Except.ok.inj h2)
              simp [← h3]
            · exact Nat.lt_trans (ih _ _ _ _ _ h2) (by simp)
  exact hcons _ _ _ _ _ _ h

theorem readVarintSigned_consumes {s : List Nat} {v : Int} {rest : List Nat}
    (h : readVarintSigned s = .ok (v, rest)) : rest.length < s.length := by
  simp only [readVarintSigned] at h
  rcases h3 : readVarint s with e | nr
  · rw [h3] at h
    exact absurd h (by simp)
  · rw [h3] at h
    have h6 : nr.2 = rest := congrArg Prod.snd (Except.ok.inj h)
    exact h6 ▸ readVarint_consumes (by rw [h3])

theorem patcherTraceGo_congr :
    ∀ fuel fuel2 (p : Patcher), p.stream.length < fuel → p.stream.length < fuel2 →
      patcherTraceGo fuel p = patcherTraceGo fuel2 p := by
  intro fuel
  induction fuel with
  | zero =>
      intro fuel2 p h1 h2
      omega
  | succ f ih =>
      intro fuel2 p h1 h2
      match fuel2, h2 with
      | f2 + 1, h2 =>
        cases hst : p.state with
        | atNextControl =>
            cases hv : readVarint p.stream with
            | ok r =>
                obtain ⟨addLen, rest⟩ := r
                have hc := readVarint_consumes hv
                simp only [patcherTraceGo, hst, hv]
                exact ih f2 { p with stream := rest, state := .add addLen }
                  (by simp; omega) (by simp; omega)
            | error e =>
                cases e <;> simp only [patcherTraceGo, hst, hv]
        | add addLen =>
            by_cases hq : min (min addLen (p.oldData.length - p.oldPos)) p.stream.length = addLen
            · cases hv : readVarint (p.stream.drop (min (min addLen (p.oldData.length - p.oldPos)) p.stream.length)) with
              | ok r =>
                  obtain ⟨copyLen, rest2⟩ := r
                  have hc := readVarint_consumes hv
                  have hd : (p.stream.drop (min (min addLen (p.oldData.length - p.oldPos)) p.stream.length)).length ≤ p.stream.length := by
                    simp only [List.length_drop]
                    omega
                  simp only [patcherTraceGo, hst, if_pos hq, hv]
                  rw [ih f2 { p with oldPos := p.oldPos + min (min addLen (p.oldData.length - p.oldPos)) p.stream.length, stream := rest2, state := .copy copyLen } (by simp; omega) (by simp; omega)]
              | error e =>
                  simp only [patcherTraceGo, hst, if_pos hq, hv]
            · simp only [patcherTraceGo, hst, if_neg hq]
        | copy copyLen =>
            by_cases hq : min copyLen p.stream.length = copyLen
            · cases hv : readVarintSigned (p.stream.drop (min copyLen p.stream.length)) with
              | ok r =>
                  obtain ⟨seek, rest2⟩ := r
                  have hc := readVarintSigned_consumes hv
                  have hd : (p.stream.drop (min copyLen p.stream.length)).length ≤ p.stream.length := by
                    simp only [List.length_drop]
                    omega
                  cases hsk : oldSeek p.oldPos seek with
                  | ok pos2 =>
                      simp only [patcherTraceGo, hst, if_pos hq, hv, hsk]
                      rw [ih f2 { p with oldPos := pos2, stream := rest2, state := .atNextControl } (by simp; omega) (by simp; omega)]
                  | error e =>
                      simp only [patcherTraceGo, hst, if_pos hq, hv, hsk]
              | error e =>
                  simp only [patcherTraceGo, hst, if_pos hq, hv]
            · simp only [patcherTraceGo, hst, if_neg hq]

theorem patcherTrace_atNext_ok {p : Patcher} {addLen : Nat} {rest : List Nat}
    (hst : p.state = .atNextControl)
    (hv : readVarint p.stream = .ok (addLen, rest)) :
    patcherTrace p = patcherTrace { p with stream := rest, state := .add addLen } := by
  have hc := readVarint_consumes hv
  rw [show patcherTrace p = patcherTraceGo (p.stream.length + 1) p from rfl]
  simp only [patcherTraceGo, hst, hv]
  rw [patcherTraceGo_congr p.stream.length (rest.length + 1)
    { p with stream := rest, state := .add addLen }
    (by show rest.length < p.stream.length; omega)
    (by show rest.length < rest.length + 1; omega)]
  rfl

theorem patcherTrace_atNext_eof {p : Patcher}
    (hst : p.state = .atNextControl)
    (hv : readVarint p.stream = .error .unexpectedEof) :
    patcherTrace p = ([], .clean) := by
  rw [show patcherTrace p = patcherTraceGo (p.stream.length + 1) p from rfl]
  simp only [patcherTraceGo, hst, hv]

theorem patcherTrace_atNext_err {p : Patcher} {e : IoErr}
    (hst : p.state = .atNextControl) (hne : e ≠ .unexpectedEof)
    (hv : readVarint p.stream = .error e) :
    patcherTrace p = ([], .fail e) := by
  rw [show patcherTrace p = patcherTraceGo (p.stream.length + 1) p from rfl]
  cases e with
  | unexpectedEof => exact absurd rfl hne
  | invalidData => simp only [patcherTraceGo, hst, hv]
  | invalidSeek => simp only [patcherTraceGo, hst, hv]

theorem patcherTrace_add_done {p : Patcher} {addLen : Nat}
    (hst : p.state = .add addLen)
    (hq : min (min addLen (p.oldData.length - p.oldPos)) p.stream.length = addLen)
    {copyLen : Nat} {rest2 : List Nat}
    (hv : readVarint (p.stream.drop addLen) = .ok (copyLen, rest2)) :
    patcherTrace p =
      (List.zipWith wadd ((p.oldData.drop p.oldPos).take addLen) (p.stream.take addLen) ++
        (patcherTrace { p with oldPos := p.oldPos + addLen, stream := rest2, state := .copy copyLen }).1,
       (patcherTrace { p with oldPos := p.oldPos + addLen, stream := rest2, state := .copy copyLen }).2) := by
  have hc := readVarint_consumes hv
  have hd : (p.stream.drop addLen).length ≤ p.stream.length := by
    simp only [List.length_drop]
    omega
  rw [show patcherTrace p = patcherTraceGo (p.stream.length + 1) p from rfl]
  simp only [patcherTraceGo, hst, hq, eq_self_iff_true, if_true, hv]
  rw [patcherTraceGo_congr p.stream.length (rest2.length + 1)
    { p with oldPos := p.oldPos + addLen, stream := rest2, state := .copy copyLen }
    (by show rest2.length < p.stream.length; omega)
    (by show rest2.length < rest2.length + 1; omega)]
  rfl

theorem patcherTrace_add_verr {p : Patcher} {addLen : Nat}
    (hst : p.state = .add addLen)
    (hq : min (min addLen (p.oldData.length - p.oldPos)) p.stream.length = addLen)
    {e : IoErr}
    (hv : readVarint (p.stream.drop addLen) = .error e) :
    patcherTrace p =
      (List.zipWith wadd ((p.oldData.drop p.oldPos).take addLen) (p.stream.take addLen), .fail e) := by
  rw [show patcherTrace p = patcherTraceGo (p.stream.length + 1) p from rfl]
  simp only [patcherTraceGo, hst, hq, eq_self_iff_true, if_true, hv]

theorem patcherTrace_add_incomplete {p : Patcher} {addLen : Nat}
    (hst : p.state = .add addLen)
    (hq : min (min addLen (p.oldData.length - p.oldPos)) p.stream.length ≠ addLen) :
    patcherTrace p =
      (List.zipWith wadd
        ((p.oldData.drop p.oldPos).take (min (min addLen (p.oldData.length - p.oldPos)) p.stream.length))
        (p.stream.take (min (min addLen (p.oldData.length - p.oldPos)) p.stream.length)),
       .fail .unexpectedEof) := by
  rw [show patcherTrace p = patcherTraceGo (p.stream.length + 1) p from rfl]
  simp only [patcherTraceGo, hst, if_neg hq]

theorem patcherTrace_copy_done {p : Patcher} {copyLen : Nat}
    (hst : p.state = .copy copyLen)
    (hq : min copyLen p.stream.length = copyLen)
    {seek : Int} {rest2 : List Nat}
    (hv : readVarintSigned (p.stream.drop copyLen) = .ok (seek, rest2))
    {pos2 : Nat} (hseek : oldSeek p.oldPos seek = .ok pos2) :
    patcherTrace p =
      (p.stream.take copyLen ++
        (patcherTrace { p with oldPos := pos2, stream := rest2, state := .atNextControl }).1,
       (patcherTrace { p with oldPos := pos2, stream := rest2, state := .atNextControl }).2) := by
  have hc := readVarintSigned_consumes hv
  have hd : (p.stream.drop copyLen).length ≤ p.stream.length := by
    simp only [List.length_drop]
    omega
  rw [show patcherTrace p = patcherTraceGo (p.stream.length + 1) p from rfl]
  simp only [patcherTraceGo, hst, hq, eq_self_iff_true, if_true, hv, hseek]
  rw [patcherTraceGo_congr p.stream.length (rest2.length + 1)
    { p with oldPos := pos2, stream := rest2, state := .atNextControl }
    (by show rest2.length < p.stream.length; omega)
    (by show rest2.length < rest2.length + 1; omega)]
  rfl

theorem patcherTrace_copy_verr {p : Patcher} {copyLen : Nat}
    (hst : p.state = .copy copyLen)
    (hq : min copyLen p.stream.length = copyLen)
    {e : IoErr}
    (hv : readVarintSigned (p.stream.drop copyLen) = .error e) :
    patcherTrace p = (p.stream.take copyLen, .fail e) := by
  rw [show patcherTrace p = patcherTraceGo (p.stream.length + 1) p from rfl]
  simp only [patcherTraceGo, hst, hq, eq_self_iff_true, if_true, hv]

theorem patcherTrace_copy_seekErr {p : Patcher} {copyLen : Nat}
    (hst : p.state = .copy copyLen)
    (hq : min copyLen p.stream.length = copyLen)
    {seek : Int} {rest2 : List Nat}
    (hv : readVarintSigned (p.stream.drop copyLen) = .ok (seek, rest2))
    {e : IoErr} (hseek : oldSeek p.oldPos seek = .error e) :
    patcherTrace p = (p.stream.take copyLen, .fail e) := by
  rw [show patcherTrace p = patcherTraceGo (p.stream.length + 1) p from rfl]
  simp only [patcherTraceGo, hst, hq, eq_self_iff_true, if_true, hv, hseek]

theorem patcherTrace_copy_incomplete {p : Patcher} {copyLen : Nat}
    (hst : p.state = .copy copyLen)
    (hq : min copyLen p.stream.length ≠ copyLen) :
    patcherTrace p =
      (p.stream.take (min copyLen p.stream.length), .fail .unexpectedEof) := by
  rw [show patcherTrace p = patcherTraceGo (p.stream.length + 1) p from rfl]
  simp only [patcherTraceGo, hst, if_neg hq]

theorem oldReadExact_ok {data : List Nat} {pos n : Nat} {out : List Nat}
    (h : oldReadExact data pos n = .ok out) :
    out = (data.drop pos).take n ∧ n ≤ data.length - pos := by
  simp only [oldReadExact] at h
  split at h
  · exact ⟨(Except.ok.inj h).symm, by assumption⟩
  · exact absurd h (by simp)

theorem oldReadExact_err {data : List Nat} {pos n : Nat} {e : IoErr}
    (h : oldReadExact data pos n = .error e) :
    e = .unexpectedEof ∧ data.length - pos < n := by
  simp only [oldReadExact] at h
  split at h
  · exact absurd h (by simp)
  · exact ⟨(Except.error.inj h).symm, by omega⟩

theorem streamReadExact_take {s : List Nat} {n : Nat} {a r : List Nat}
    (h : streamReadExact s n = .ok (a, r)) :
    a = s.take n ∧ r = s.drop n ∧ n ≤ s.length := by
  simp only [streamReadExact] at h
  split at h
  · have h2 := Except.ok.inj h
    exact ⟨(congrArg Prod.fst h2).symm, (congrArg Prod.snd h2).symm, by assumption⟩
  · exact absurd h (by simp)

theorem streamReadExact_err {s : List Nat} {n : Nat} {e : IoErr}
    (h : streamReadExact s n = .error e) :
    e = .unexpectedEof ∧ s.length < n := by
  simp only [streamReadExact] at h
  split at h
  · exact absurd h (by simp)
  · exact ⟨(Except.error.inj h).symm, by omega⟩

theorem take_split (s : List Nat) (m q : Nat) (hm : m ≤ q) :
    s.take q = s.take m ++ (s.drop m).take (q - m) := by
  obtain ⟨t, ht⟩ : ∃ t, q = m + t := ⟨q - m, by omega⟩
  subst ht
  simp only [Nat.add_sub_cancel_left]
  exact List.take_add s m t

theorem zipWith_wadd_split (d s : List Nat) (pos m q : Nat)
    (hm : m ≤ q) (hold : m ≤ d.length - pos) (hsl : m ≤ s.length) :
    List.zipWith wadd ((d.drop pos).take q) (s.take q) =
      List.zipWith wadd ((d.drop pos).take m) (s.take m) ++
        List.zipWith wadd ((d.drop (pos + m)).take (q - m)) ((s.drop m).take (q - m)) := by
  rw [take_split (d.drop pos) m q hm, take_split s m q hm]
  rw [List.zipWith_append]
  · have hdd : (d.drop pos).drop m = d.drop (pos + m) := by
      rw [List.drop_drop]
      try (congr 1; omega)
    rw [hdd]
  · simp only [List.length_take, List.length_drop]
    omega

theorem patcherTrace_add_split {p : Patcher} {addLen m : Nat}
    (hst : p.state = .add addLen) (hm : m ≤ addLen)
    (hold : m ≤ p.oldData.length - p.oldPos) (hsl : m ≤ p.stream.length) :
    patcherTrace p =
      (List.zipWith wadd ((p.oldData.drop p.oldPos).take m) (p.stream.take m) ++
        (patcherTrace { p with oldPos := p.oldPos + m, stream := p.stream.drop m, state := .add (addLen - m) }).1,
       (patcherTrace { p with oldPos := p.oldPos + m, stream := p.stream.drop m, state := .add (addLen - m) }).2) := by
  obtain ⟨d, pos, s, st⟩ := p
  dsimp only at hst hold hsl ⊢
  subst hst
  by_cases hq : min (min addLen (d.length - pos)) s.length = addLen
  · have hq2 : min (min (addLen - m) (d.length - (pos + m))) (s.drop m).length = addLen - m := by
      simp only [List.length_drop]
      omega
    have hdd : (s.drop m).drop (addLen - m) = s.drop addLen := by
      rw [List.drop_drop]
      try (congr 1; omega)
    cases hv : readVarint (s.drop addLen) with
    | ok r =>
        obtain ⟨copyLen, rest2⟩ := r
        have hv2 : readVarint ((s.drop m).drop (addLen - m)) = .ok (copyLen, rest2) := by
          rw [hdd]
          exact hv
        rw [patcherTrace_add_done (p := ⟨d, pos, s, .add addLen⟩) rfl hq hv]
        rw [patcherTrace_add_done (p := ⟨d, pos + m, s.drop m, .add (addLen - m)⟩) rfl hq2 hv2]
        dsimp only
        rw [zipWith_wadd_split d s pos m addLen hm hold hsl]
        rw [show pos + m + (addLen - m) = pos + addLen from by omega]
        rw [List.append_assoc]
    | error e =>
        have hv2 : readVarint ((s.drop m).drop (addLen - m)) = .error e := by
          rw [hdd]
          exact hv
        rw [patcherTrace_add_verr (p := ⟨d, pos, s, .add addLen⟩) rfl hq hv]
        rw [patcherTrace_add_verr (p := ⟨d, pos + m, s.drop m, .add (addLen - m)⟩) rfl hq2 hv2]
        dsimp only
        rw [zipWith_wadd_split d s pos m addLen hm hold hsl]
  · have hq2 : min (min (addLen - m) (d.length - (pos + m))) (s.drop m).length ≠ addLen - m := by
      simp only [List.length_drop]
      omega
    rw [patcherTrace_add_incomplete (p := ⟨d, pos, s, .add addLen⟩) rfl hq]
    rw [patcherTrace_add_incomplete (p := ⟨d, pos + m, s.drop m, .add (addLen - m)⟩) rfl hq2]
    dsimp only
    have hqq : min (min (addLen - m) (d.length - (pos + m))) (s.drop m).length =
        min (min addLen (d.length - pos)) s.length - m := by
      simp only [List.length_drop]
      omega
    rw [hqq]
    rw [zipWith_wadd_split d s pos m (min (min addLen (d.length - pos)) s.length)
      (by omega) hold hsl]

theorem patcherTrace_copy_split {p : Patcher} {copyLen m : Nat}
    (hst : p.state = .copy copyLen) (hm : m ≤ copyLen) (hsl : m ≤ p.stream.length) :
    patcherTrace p =
      (p.stream.take m ++
        (patcherTrace { p with stream := p.stream.drop m, state := .copy (copyLen - m) }).1,
       (patcherTrace { p with stream := p.stream.drop m, state := .copy (copyLen - m) }).2) := by
  obtain ⟨d, pos, s, st⟩ := p
  dsimp only at hst hsl ⊢
  subst hst
  by_cases hq : min copyLen s.length = copyLen
  · have hq2 : min (copyLen - m) (s.drop m).length = copyLen - m := by
      simp only [List.length_drop]
      omega
    have hdd : (s.drop m).drop (copyLen - m) = s.drop copyLen := by
      rw [List.drop_drop]
      try (congr 1; omega)
    cases hv : readVarintSigned (s.drop copyLen) with
    | ok r =>
        obtain ⟨seek, rest2⟩ := r
        have hv2 : readVarintSigned ((s.drop m).drop (copyLen - m)) = .ok (seek, rest2) := by
          rw [hdd]
          exact hv
        cases hsk : oldSeek pos seek with
        | ok pos2 =>
            rw [patcherTrace_copy_done (p := ⟨d, pos, s, .copy copyLen⟩) rfl hq hv hsk]
            rw [patcherTrace_copy_done (p := ⟨d, pos, s.drop m, .copy (copyLen - m)⟩) rfl hq2 hv2 hsk]
            dsimp only
            rw [take_split s m copyLen hm]
            rw [List.append_assoc]
        | error e =>
            rw [patcherTrace_copy_seekErr (p := ⟨d, pos, s, .copy copyLen⟩) rfl hq hv hsk]
            rw [patcherTrace_copy_seekErr (p := ⟨d, pos, s.drop m, .copy (copyLen - m)⟩) rfl hq2 hv2 hsk]
            dsimp only
            rw [take_split s m copyLen hm]
    | error e =>
        have hv2 : readVarintSigned ((s.drop m).drop (copyLen - m)) = .error e := by
          rw [hdd]
          exact hv
        rw [patcherTrace_copy_verr (p := ⟨d, pos, s, .copy copyLen⟩) rfl hq hv]
        rw [patcherTrace_copy_verr (p := ⟨d, pos, s.drop m, .copy (copyLen - m)⟩) rfl hq2 hv2]
        dsimp only
        rw [take_split s m copyLen hm]
  · have hq2 : min (copyLen - m) (s.drop m).length ≠ copyLen - m := by
      simp only [List.length_drop]
      omega
    rw [patcherTrace_copy_incomplete (p := ⟨d, pos, s, .copy copyLen⟩) rfl hq]
    rw [patcherTrace_copy_incomplete (p := ⟨d, pos, s.drop m, .copy (copyLen - m)⟩) rfl hq2]
    dsimp only
    have hqq : min (copyLen - m) (s.drop m).length = min copyLen s.length - m := by
      simp only [List.length_drop]
      omega
    rw [hqq]
    rw [take_split s m (min copyLen s.length) (by omega)]

theorem patcherRead_trace (p : Patcher) (k : Nat) :
    (∀ (out : List Nat) (p2 : Patcher), patcherRead p k = .ok (out, p2) →
       (patcherTrace p).1 = out ++ (patcherTrace p2).1 ∧
       (patcherTrace p).2 = (patcherTrace p2).2 ∧
       (out.length = k ∨ ((patcherTrace p2).1 = [] ∧ (patcherTrace p2).2 = .clean)) ∧
       p2.stream.length + out.length ≤ p.stream.length) ∧
    (∀ e : IoErr, patcherRead p k = .error e → (patcherTrace p).2 = .fail e) := by
  induction p, k using patcherRead.induct with
  | case1 =>
      refine ⟨?_, ?_⟩
      · intro out p2 h
        rename_i p
        rw [patcherRead_zero] at h
        injection h with h2
        have h3 : ([] : List Nat) = out := congrArg Prod.fst h2
        have h4 : p = p2 := congrArg Prod.snd h2
        rw [← h3, ← h4]
        refine ⟨by simp, rfl, Or.inl rfl, by simp⟩
      · intro e h
        rename_i p
        rw [patcherRead_zero] at h
        exact absurd h (by simp)
  | case2 =>
      refine ⟨?_, ?_⟩
      · intro out p2 h
        rename_i p k hk hst addLen rest hv ih
        rw [patcherRead_atNext_ok hk hst hv] at h
        have hc := readVarint_consumes hv
        obtain ⟨i1, i2, i3, i4⟩ := ih.1 out p2 h
        rw [patcherTrace_atNext_ok hst hv]
        refine ⟨i1, i2, i3, ?_⟩
        have i4b : p2.stream.length + out.length ≤ rest.length := i4
        omega
      · intro e h
        rename_i p k hk hst addLen rest hv ih
        rw [patcherRead_atNext_ok hk hst hv] at h
        rw [patcherTrace_atNext_ok hst hv]
        exact ih.2 e h
  | case3 =>
      refine ⟨?_, ?_⟩
      · intro out p2 h
        rename_i p k hk hst hv
        rw [patcherRead_atNext_eof hk hst hv] at h
        injection h with h2
        have h3 : ([] : List Nat) = out := congrArg Prod.fst h2
        have h4 : p = p2 := congrArg Prod.snd h2
        rw [← h3, ← h4]
        rw [patcherTrace_atNext_eof hst hv]
        exact ⟨by simp, rfl, Or.inr ⟨rfl, rfl⟩, by simp⟩
      · intro e h
        rename_i p k hk hst hv
        rw [patcherRead_atNext_eof hk hst hv] at h
        exact absurd h (by simp)
  | case4 =>
      refine ⟨?_, ?_⟩
      · intro out p2 h
        rename_i p k hk hst e0 hne hv
        rw [patcherRead_atNext_err hk hst (fun hh => hne hh) hv] at h
        exact absurd h (by simp)
      · intro e h
        rename_i p k hk hst e0 hne hv
        rw [patcherRead_atNext_err hk hst (fun hh => hne hh) hv] at h
        injection h with h2
        rw [patcherTrace_atNext_err hst (fun hh => hne hh) hv]
        rw [h2]
  | case5 =>
      refine ⟨?_, ?_⟩
      · intro out p2 h
        rename_i p k hk addLen hst m e0 hold
        rw [patcherRead_add_oldErr hk hst hold] at h
        exact absurd h (by simp)
      · intro e h
        rename_i p k hk addLen hst m e0 hold
        rw [patcherRead_add_oldErr hk hst hold] at h
        injection h with h2
        have hold2 : oldReadExact p.oldData p.oldPos (min (min addLen k) DEFAULT_BUF_SIZE) = .error e0 := hold
        obtain ⟨he, hlen⟩ := oldReadExact_err hold2
        have hq : min (min addLen (p.oldData.length - p.oldPos)) p.stream.length ≠ addLen := by
          omega
        rw [patcherTrace_add_incomplete hst hq]
        rw [← h2, he]
  | case6 =>
      refine ⟨?_, ?_⟩
      · intro out p2 h
        rename_i p k hk addLen hst m outChunk hold e0 hs
        rw [patcherRead_add_streamErr hk hst hold hs] at h
        exact absurd h (by simp)
      · intro e h
        rename_i p k hk addLen hst m outChunk hold e0 hs
        rw [patcherRead_add_streamErr hk hst hold hs] at h
        injection h with h2
        have hs2 : streamReadExact p.stream (min (min addLen k) DEFAULT_BUF_SIZE) = .error e0 := hs
        obtain ⟨he, hlen⟩ := streamReadExact_err hs2
        have hq : min (min addLen (p.oldData.length - p.oldPos)) p.stream.length ≠ addLen := by
          omega
        rw [patcherTrace_add_incomplete hst hq]
        rw [← h2, he]
  | case7 =>
      refine ⟨?_, ?_⟩
      · intro out p2 h
        rename_i p k hk addLen hst m outChunk hold diffChunk rest hs hadd e0 hv
        rw [patcherRead_add_done_verr hk hst hold hs hadd hv] at h
        exact absurd h (by simp)
      · intro e h
        rename_i p k hk addLen hst m outChunk hold diffChunk rest hs hadd e0 hv
        rw [patcherRead_add_done_verr hk hst hold hs hadd hv] at h
        injection h with h2
        have hold2 : oldReadExact p.oldData p.oldPos (min (min addLen k) DEFAULT_BUF_SIZE) = .ok outChunk := hold
        have hs2 : streamReadExact p.stream (min (min addLen k) DEFAULT_BUF_SIZE) = .ok (diffChunk, rest) := hs
        have hadd2 : addLen = min (min addLen k) DEFAULT_BUF_SIZE := hadd
        obtain ⟨hoc, holle⟩ := oldReadExact_ok hold2
        obtain ⟨hdc, hrest, hsle⟩ := streamReadExact_take hs2
        have hq : min (min addLen (p.oldData.length - p.oldPos)) p.stream.length = addLen := by
          omega
        have hv2 : readVarint (p.stream.drop addLen) = .error e0 := by
          rw [hadd2, ← hrest]
          exact hv
        rw [patcherTrace_add_verr hst hq hv2]
        rw [h2]
  | case8 =>
      refine ⟨?_, ?_⟩
      · intro out p2 h
        rename_i p k hk addLen hst m outChunk hold diffChunk rest hs hadd copyLen rest2 hv ih
        have hold2 : oldReadExact p.oldData p.oldPos (min (min addLen k) DEFAULT_BUF_SIZE) = .ok outChunk := hold
        have hs2 : streamReadExact p.stream (min (min addLen k) DEFAULT_BUF_SIZE) = .ok (diffChunk, rest) := hs
        have hadd2 : addLen = min (min addLen k) DEFAULT_BUF_SIZE := hadd
        obtain ⟨hoc, holle⟩ := oldReadExact_ok hold2
        obtain ⟨hdc, hrest, hsle⟩ := streamReadExact_take hs2
        have hl1 : outChunk.length = min (min addLen k) DEFAULT_BUF_SIZE := oldReadExact_length hold2
        have hl2 : diffChunk.length = min (min addLen k) DEFAULT_BUF_SIZE := (streamReadExact_ok hs2).1
        have hq : min (min addLen (p.oldData.length - p.oldPos)) p.stream.length = addLen := by
          omega
        have hv2 : readVarint (p.stream.drop addLen) = .ok (copyLen, rest2) := by
          rw [hadd2, ← hrest]
          exact hv
        have htr := patcherTrace_add_done hst hq hv2
        rw [hadd2] at htr
        rw [patcherRead_add_done hk hst hold hs hadd hv] at h
        cases hrec : patcherRead { p with oldPos := p.oldPos + min (min addLen k) DEFAULT_BUF_SIZE, stream := rest2, state := .copy copyLen } (k - min (min addLen k) DEFAULT_BUF_SIZE) with
        | error e =>
            rw [hrec] at h
            exact absurd h (by simp [Except.map])
        | ok r =>
            rw [hrec] at h
            simp only [Except.map] at h
            injection h with h2
            have hout : List.zipWith wadd outChunk diffChunk ++ r.1 = out := congrArg Prod.fst h2
            have hp2 : r.2 = p2 := congrArg Prod.snd h2
            obtain ⟨i1, i2, i3, i4⟩ := ih.1 r.1 r.2 (by rw [hrec])
            rw [hp2] at i1 i2 i3 i4
            have houtlen : out.length = min (min addLen k) DEFAULT_BUF_SIZE + r.1.length := by
              rw [← hout]
              simp only [List.length_append, List.length_zipWith, hl1, hl2, Nat.min_self]
            refine ⟨?_, ?_, ?_, ?_⟩
            · rw [htr]
              rw [i1, ← hout, hoc, hdc, List.append_assoc]
            · rw [htr]
              exact i2
            · cases i3 with
              | inl h5 =>
                  left
                  omega
              | inr h5 =>
                  right
                  exact h5
            · have i4b : p2.stream.length + r.1.length ≤ rest2.length := i4
              have hc2 : rest2.length < rest.length := readVarint_consumes hv
              have hrl : rest.length = p.stream.length - min (min addLen k) DEFAULT_BUF_SIZE := by
                rw [hrest]
                simp
              omega
      · intro e h
        rename_i p k hk addLen hst m outChunk hold diffChunk rest hs hadd copyLen rest2 hv ih
        have hold2 : oldReadExact p.oldData p.oldPos (min (min addLen k) DEFAULT_BUF_SIZE) = .ok outChunk := hold
        have hs2 : streamReadExact p.stream (min (min addLen k) DEFAULT_BUF_SIZE) = .ok (diffChunk, rest) := hs
        have hadd2 : addLen = min (min addLen k) DEFAULT_BUF_SIZE := hadd
        obtain ⟨hoc, holle⟩ := oldReadExact_ok hold2
        obtain ⟨hdc, hrest, hsle⟩ := streamReadExact_take hs2
        have hq : min (min addLen (p.oldData.length - p.oldPos)) p.stream.length = addLen := by
          omega
        have hv2 : readVarint (p.stream.drop addLen) = .ok (copyLen, rest2) := by
          rw [hadd2, ← hrest]
          exact hv
        have htr := patcherTrace_add_done hst hq hv2
        rw [hadd2] at htr
        rw [patcherRead_add_done hk hst hold hs hadd hv] at h
        cases hrec : patcherRead { p with oldPos := p.oldPos + min (min addLen k) DEFAULT_BUF_SIZE, stream := rest2, state := .copy copyLen } (k - min (min addLen k) DEFAULT_BUF_SIZE) with
        | ok r =>
            rw [hrec] at h
            exact absurd h (by simp [Except.map])
        | error e2 =>
            rw [hrec] at h
            simp only [Except.map] at h
            injection h with h2
            have i2 := ih.2 e2 (by rw [hrec])
            rw [htr]
            rw [i2, h2]
  | case9 =>
      refine ⟨?_, ?_⟩
      · intro out p2 h
        rename_i p k hk addLen hst m outChunk hold diffChunk rest hs hadd ih
        have hold2 : oldReadExact p.oldData p.oldPos (min (min addLen k) DEFAULT_BUF_SIZE) = .ok outChunk := hold
        have hs2 : streamReadExact p.stream (min (min addLen k) DEFAULT_BUF_SIZE) = .ok (diffChunk, rest) := hs
        have hadd2 : addLen ≠ min (min addLen k) DEFAULT_BUF_SIZE := hadd
        obtain ⟨hoc, holle⟩ := oldReadExact_ok hold2
        obtain ⟨hdc, hrest, hsle⟩ := streamReadExact_take hs2
        have hl1 : outChunk.length = min (min addLen k) DEFAULT_BUF_SIZE := oldReadExact_length hold2
        have hl2 : diffChunk.length = min (min addLen k) DEFAULT_BUF_SIZE := (streamReadExact_ok hs2).1
        have hmle : min (min addLen k) DEFAULT_BUF_SIZE ≤ addLen := by
          omega
        have htr := patcherTrace_add_split hst hmle holle hsle
        rw [← hrest] at htr
        rw [patcherRead_add_more hk hst hold hs hadd] at h
        cases hrec : patcherRead { p with oldPos := p.oldPos + min (min addLen k) DEFAULT_BUF_SIZE, stream := rest, state := .add (addLen - min (min addLen k) DEFAULT_BUF_SIZE) } (k - min (min addLen k) DEFAULT_BUF_SIZE) with
        | error e =>
            rw [hrec] at h
            exact absurd h (by simp [Except.map])
        | ok r =>
            rw [hrec] at h
            simp only [Except.map] at h
            injection h with h2
            have hout : List.zipWith wadd outChunk diffChunk ++ r.1 = out := congrArg Prod.fst h2
            have hp2 : r.2 = p2 := congrArg Prod.snd h2
            obtain ⟨i1, i2, i3, i4⟩ := ih.1 r.1 r.2 (by rw [hrec])
            rw [hp2] at i1 i2 i3 i4
            have houtlen : out.length = min (min addLen k) DEFAULT_BUF_SIZE + r.1.length := by
              rw [← hout]
              simp only [List.length_append, List.length_zipWith, hl1, hl2, Nat.min_self]
            refine ⟨?_, ?_, ?_, ?_⟩
            · rw [htr]
              rw [i1, ← hout, hoc, hdc, List.append_assoc]
            · rw [htr]
              exact i2
            · cases i3 with
              | inl h5 =>
                  left
                  omega
              | inr h5 =>
                  right
                  exact h5
            · have i4b : p2.stream.length + r.1.length ≤ rest.length := i4
              have hrl : rest.length = p.stream.length - min (min addLen k) DEFAULT_BUF_SIZE := by
                rw [hrest]
                simp
              omega
      · intro e h
        rename_i p k hk addLen hst m outChunk hold diffChunk rest hs hadd ih
        have hold2 : oldReadExact p.oldData p.oldPos (min (min addLen k) DEFAULT_BUF_SIZE) = .ok outChunk := hold
        have hs2 : streamReadExact p.stream (min (min addLen k) DEFAULT_BUF_SIZE) = .ok (diffChunk, rest) := hs
        have hadd2 : addLen ≠ min (min addLen k) DEFAULT_BUF_SIZE := hadd
        obtain ⟨hoc, holle⟩ := oldReadExact_ok hold2
        obtain ⟨hdc, hrest, hsle⟩ := streamReadExact_take hs2
        have hmle : min (min addLen k) DEFAULT_BUF_SIZE ≤ addLen := by
          omega
        have htr := patcherTrace_add_split hst hmle holle hsle
        rw [← hrest] at htr
        rw [patcherRead_add_more hk hst hold hs hadd] at h
        cases hrec : patcherRead { p with oldPos := p.oldPos + min (min addLen k) DEFAULT_BUF_SIZE, stream := rest, state := .add (addLen - min (min addLen k) DEFAULT_BUF_SIZE) } (k - min (min addLen k) DEFAULT_BUF_SIZE) with
        | ok r =>
            rw [hrec] at h
            exact absurd h (by simp [Except.map])
        | error e2 =>
            rw [hrec] at h
            simp only [Except.map] at h
            injection h with h2
            have i2 := ih.2 e2 (by rw [hrec])
            rw [htr]
            rw [i2, h2]
  | case10 =>
      refine ⟨?_, ?_⟩
      · intro out p2 h
        rename_i p k hk copyLen hst m e0 hs
        rw [patcherRead_copy_streamErr hk hst hs] at h
        exact absurd h (by simp)
      · intro e h
        rename_i p k hk copyLen hst m e0 hs
        rw [patcherRead_copy_streamErr hk hst hs] at h
        injection h with h2
        have hs2 : streamReadExact p.stream (min copyLen k) = .error e0 := hs
        obtain ⟨he, hlen⟩ := streamReadExact_err hs2
        have hq : min copyLen p.stream.length ≠ copyLen := by
          omega
        rw [patcherTrace_copy_incomplete hst hq]
        rw [← h2, he]
  | case11 =>
      refine ⟨?_, ?_⟩
      · intro out p2 h
        rename_i p k hk copyLen hst m chunk rest hs hcopy e0 hv2
        rw [patcherRead_copy_verr hk hst hs hcopy hv2] at h
        exact absurd h (by simp)
      · intro e h
        rename_i p k hk copyLen hst m chunk rest hs hcopy e0 hv2
        rw [patcherRead_copy_verr hk hst hs hcopy hv2] at h
        injection h with h2
        have hs2 : streamReadExact p.stream (min copyLen k) = .ok (chunk, rest) := hs
        have hcopy2 : copyLen = min copyLen k := hcopy
        obtain ⟨hck, hrest, hsle⟩ := streamReadExact_take hs2
        have hq : min copyLen p.stream.length = copyLen := by
          omega
        have hv2b : readVarintSigned (p.stream.drop copyLen) = .error e0 := by
          rw [hcopy2, ← hrest]
          exact hv2
        rw [patcherTrace_copy_verr hst hq hv2b]
        rw [h2]
  | case12 =>
      refine ⟨?_, ?_⟩
      · intro out p2 h
        rename_i p k hk copyLen hst m chunk rest hs hcopy seek rest2 hv2 e0 hseek
        rw [patcherRead_copy_seekErr hk hst hs hcopy hv2 hseek] at h
        exact absurd h (by simp)
      · intro e h
        rename_i p k hk copyLen hst m chunk rest hs hcopy seek rest2 hv2 e0 hseek
        rw [patcherRead_copy_seekErr hk hst hs hcopy hv2 hseek] at h
        injection h with h2
        have hs2 : streamReadExact p.stream (min copyLen k) = .ok (chunk, rest) := hs
        have hcopy2 : copyLen = min copyLen k := hcopy
        obtain ⟨hck, hrest, hsle⟩ := streamReadExact_take hs2
        have hq : min copyLen p.stream.length = copyLen := by
          omega
        have hv2b : readVarintSigned (p.stream.drop copyLen) = .ok (seek, rest2) := by
          rw [hcopy2, ← hrest]
          exact hv2
        rw [patcherTrace_copy_seekErr hst hq hv2b hseek]
        rw [h2]
  | case13 =>
      refine ⟨?_, ?_⟩
      · intro out p2 h
        rename_i p k hk copyLen hst m chunk rest hs hcopy seek rest2 hv2 pos2 hseek ih
        have hs2 : streamReadExact p.stream (min copyLen k) = .ok (chunk, rest) := hs
        have hcopy2 : copyLen = min copyLen k := hcopy
        obtain ⟨hck, hrest, hsle⟩ := streamReadExact_take hs2
        have hcl : chunk.length = min copyLen k := (streamReadExact_ok hs2).1
        rw [← hcopy2] at hck
        have hq : min copyLen p.stream.length = copyLen := by
          omega
        have hv2b : readVarintSigned (p.stream.drop copyLen) = .ok (seek, rest2) := by
          rw [hcopy2, ← hrest]
          exact hv2
        have htr := patcherTrace_copy_done hst hq hv2b hseek
        rw [patcherRead_copy_done hk hst hs hcopy hv2 hseek] at h
        cases hrec : patcherRead { p with oldPos := pos2, stream := rest2, state := .atNextControl } (k - min copyLen k) with
        | error e =>
            rw [hrec] at h
            exact absurd h (by simp [Except.map])
        | ok r =>
            rw [hrec] at h
            simp only [Except.map] at h
            injection h with h2
            have hout : chunk ++ r.1 = out := congrArg Prod.fst h2
            have hp2 : r.2 = p2 := congrArg Prod.snd h2
            obtain ⟨i1, i2, i3, i4⟩ := ih.1 r.1 r.2 (by rw [hrec])
            rw [hp2] at i1 i2 i3 i4
            have houtlen : out.length = min copyLen k + r.1.length := by
              rw [← hout]
              simp only [List.length_append, hcl]
            refine ⟨?_, ?_, ?_, ?_⟩
            · rw [htr]
              rw [i1, ← hout, hck, List.append_assoc]
            · rw [htr]
              exact i2
            · cases i3 with
              | inl h5 =>
                  left
                  omega
              | inr h5 =>
                  right
                  exact h5
            · have i4b : p2.stream.length + r.1.length ≤ rest2.length := i4
              have hc2 : rest2.length < rest.length := readVarintSigned_consumes hv2
              have hrl : rest.length = p.stream.length - min copyLen k := by
                rw [hrest]
                simp
              omega
      · intro e h
        rename_i p k hk copyLen hst m chunk rest hs hcopy seek rest2 hv2 pos2 hseek ih
        have hs2 : streamReadExact p.stream (min copyLen k) = .ok (chunk, rest) := hs
        have hcopy2 : copyLen = min copyLen k := hcopy
        obtain ⟨hck, hrest, hsle⟩ := streamReadExact_take hs2
        have hq : min copyLen p.stream.length = copyLen := by
          omega
        have hv2b : readVarintSigned (p.stream.drop copyLen) = .ok (seek, rest2) := by
          rw [hcopy2, ← hrest]
          exact hv2
        have htr := patcherTrace_copy_done hst hq hv2b hseek
        rw [patcherRead_copy_done hk hst hs hcopy hv2 hseek] at h
        cases hrec : patcherRead { p with oldPos := pos2, stream := rest2, state := .atNextControl } (k - min copyLen k) with
        | ok r =>
            rw [hrec] at h
            exact absurd h (by simp [Except.map])
        | error e2 =>
            rw [hrec] at h
            simp only [Except.map] at h
            injection h with h2
            have i2 := ih.2 e2 (by rw [hrec])
            rw [htr]
            rw [i2, h2]
  | case14 =>
      refine ⟨?_, ?_⟩
      · intro out p2 h
        rename_i p k hk copyLen hst m chunk rest hs hcopy ih
        have hs2 : streamReadExact p.stream (min copyLen k) = .ok (chunk, rest) := hs
        have hcopy2 : copyLen ≠ min copyLen k := hcopy
        obtain ⟨hck, hrest, hsle⟩ := streamReadExact_take hs2
        have hcl : chunk.length = min copyLen k := (streamReadExact_ok hs2).1
        have hmle : min copyLen k ≤ copyLen := by
          omega
        have htr := patcherTrace_copy_split hst hmle hsle
        rw [← hrest] at htr
        rw [patcherRead_copy_more hk hst hs hcopy] at h
        cases hrec : patcherRead { p with stream := rest, state := .copy (copyLen - min copyLen k) } (k - min copyLen k) with
        | error e =>
            rw [hrec] at h
            exact absurd h (by simp [Except.map])
        | ok r =>
            rw [hrec] at h
            simp only [Except.map] at h
            injection h with h2
            have hout : chunk ++ r.1 = out := congrArg Prod.fst h2
            have hp2 : r.2 = p2 := congrArg Prod.snd h2
            obtain ⟨i1, i2, i3, i4⟩ := ih.1 r.1 r.2 (by rw [hrec])
            rw [hp2] at i1 i2 i3 i4
            have houtlen : out.length = min copyLen k + r.1.length := by
              rw [← hout]
              simp only [List.length_append, hcl]
            refine ⟨?_, ?_, ?_, ?_⟩
            · rw [htr]
              rw [i1, ← hout, hck, List.append_assoc]
            · rw [htr]
              exact i2
            · cases i3 with
              | inl h5 =>
                  left
                  omega
              | inr h5 =>
                  right
                  exact h5
            · have i4b : p2.stream.length + r.1.length ≤ rest.length := i4
              have hrl : rest.length = p.stream.length - min copyLen k := by
                rw [hrest]
                simp
              omega
      · intro e h
        rename_i p k hk copyLen hst m chunk rest hs hcopy ih
        have hs2 : streamReadExact p.stream (min copyLen k) = .ok (chunk, rest) := hs
        have hcopy2 : copyLen ≠ min copyLen k := hcopy
        obtain ⟨hck, hrest, hsle⟩ := streamReadExact_take hs2
        have hmle : min copyLen k ≤ copyLen := by
          omega
        have htr := patcherTrace_copy_split hst hmle hsle
        rw [← hrest] at htr
        rw [patcherRead_copy_more hk hst hs hcopy] at h
        cases hrec : patcherRead { p with stream := rest, state := .copy (copyLen - min copyLen k) } (k - min copyLen k) with
        | ok r =>
            rw [hrec] at h
            exact absurd h (by simp [Except.map])
        | error e2 =>
            rw [hrec] at h
            simp only [Except.map] at h
            injection h with h2
            have i2 := ih.2 e2 (by rw [hrec])
            rw [htr]
            rw [i2, h2]

theorem patcherRunGo_trace :
    ∀ (fuel : Nat) (p : Patcher) (k : Nat), 1 ≤ k → p.stream.length < fuel →
      patcherRunGo fuel p k =
        (match (patcherTrace p).2 with
         | .clean => .ok (patcherTrace p).1
         | .fail e => .error e) := by
  intro fuel
  induction fuel with
  | zero =>
      intro p k hk hf
      omega
  | succ f ihf =>
      intro p k hk hf
      cases hr : patcherRead p k with
      | error e =>
          have h2 := (patcherRead_trace p k).2 e hr
          simp only [patcherRunGo, hr, h2]
      | ok r =>
          obtain ⟨out, p2⟩ := r
          obtain ⟨h1, h2, h3, h4⟩ := (patcherRead_trace p k).1 out p2 hr
          cases out with
          | nil =>
              have h5 : (patcherTrace p2).1 = [] ∧ (patcherTrace p2).2 = .clean := by
                cases h3 with
                | inl h6 => simp at h6; omega
                | inr h6 => exact h6
              simp only [patcherRunGo, hr, List.isEmpty_nil, if_true]
              rw [h2, h5.2, h1, h5.1]
              rfl
          | cons b bs =>
              have hlt : p2.stream.length < f := by
                have h6 : (b :: bs).length = bs.length + 1 := by simp
                omega
              simp only [patcherRunGo, hr, List.isEmpty_cons, if_false]
              rw [ihf p2 k hk hlt]
              rw [h1, h2]
              cases (patcherTrace p2).2 with
              | clean => rfl
              | fail e => rfl

theorem patcherRun_trace (p : Patcher) (k : Nat) (hk : 1 ≤ k) :
    patcherRun p k =
      (match (patcherTrace p).2 with
       | .clean => .ok (patcherTrace p).1
       | .fail e => .error e) :=
  patcherRunGo_trace (p.stream.length + 1) p k hk (by omega)

/-- C3: `read_header` reports `BadMagic` exactly when the first four bytes,
read as a little-endian u32, differ from the magic; with a good magic it
reports `UnsupportedVersion` exactly when the 2-byte little-endian major
version is not 1; and with a good magic and major 1 it reads the
`data_offset` varint, discards that many bytes and returns the version with
the stream positioned right after the discarded bytes.  The patch
`[0,0,0,0]` gives `BadMagic` and a correctly-magicked header with major 2
gives `UnsupportedVersion`. -/
theorem C3_read_header (s : List Nat) :
    (∀ m rest, readU32LE s = .ok (m, rest) →
      (((∃ v, readHeader s = .error (.badMagic v)) ↔ m ≠ MAGIC) ∧
       (m ≠ MAGIC → readHeader s = .error (.badMagic m)) ∧
       (m = MAGIC →
         ∀ maj rest2 minor rest3,
           readU16LE rest = .ok (maj, rest2) →
           readU16LE rest2 = .ok (minor, rest3) →
           ((∃ v, readHeader s = .error (.unsupportedVersion v)) ↔ maj ≠ 1) ∧
           (maj ≠ 1 → readHeader s = .error (.unsupportedVersion maj)) ∧
           (maj = 1 → ∀ off rest4, readVarint rest3 = .ok (off, rest4) →
             readHeader s = .ok ((1, minor), rest4.drop off))))) ∧
    readHeader [0, 0, 0, 0] = .error (.badMagic 0) ∧
    readHeader (u32leBytes MAGIC ++ [2, 0, 0, 0]) = .error (.unsupportedVersion 2) := by
  refine ⟨?_, by rfl, by rfl⟩
  intro m rest hm
  have hone : majorVersionTryFrom 1 = .ok 1 := rfl
  by_cases hmagic : m = MAGIC
  · subst hmagic
    have hif : ¬MAGIC ≠ MAGIC := by simp
    refine ⟨⟨?_, fun hne => absurd rfl hne⟩, fun hne => absurd rfl hne, ?_⟩
    · rintro ⟨v, hv⟩
      exfalso
      simp only [readHeader, hm, if_neg hif] at hv
      split at hv
      · simp at hv
      · split at hv
        · simp at hv
        · split at hv
          · simp at hv
          · split at hv
            · simp at hv
            · simp at hv
    · intro _ maj rest2 minor rest3 h2 h3
      by_cases hmaj : maj = 1
      · subst hmaj
        refine ⟨⟨?_, fun hne => absurd rfl hne⟩, fun hne => absurd rfl hne, ?_⟩
        · rintro ⟨v, hv⟩
          exfalso
          simp only [readHeader, hm, if_neg hif, h2, h3, hone] at hv
          split at hv
          · simp at hv
          · simp at hv
        · intro _ off rest4 h4
          simp only [readHeader, hm, if_neg hif, h2, h3, hone, h4]
      · have hmv : majorVersionTryFrom maj = .error maj := by
          match maj, hmaj with
          | 0, _ => rfl
          | 1, h => exact absurd rfl h
          | k + 2, _ => rfl
        have hrun : readHeader s = .error (.unsupportedVersion maj) := by
          simp only [readHeader, hm, if_neg hif, h2, h3, hmv]
        exact ⟨⟨fun _ => hmaj, fun _ => ⟨maj, hrun⟩⟩, fun _ => hrun, fun h1 => absurd h1 hmaj⟩
  · have hrun : readHeader s = .error (.badMagic m) := by
      simp only [readHeader, hm, if_pos hmagic]
    exact ⟨⟨fun _ => hmagic, fun _ => ⟨m, hrun⟩⟩, fun _ => hrun, fun h1 => absurd h1 hmagic⟩

/-- Witness for C3: a header with good magic, version 1.0, `data_offset` 2
and two reserved bytes before the payload. -/
theorem C3_read_header_witness :
    readHeader [0x7c, 0x6c, 0x95, 0x5c, 1, 0, 0, 0, 2, 9, 9, 77, 88] =
      .ok ((1, 0), [77, 88]) := by
  have h := (C3_read_header [0x7c, 0x6c, 0x95, 0x5c, 1, 0, 0, 0, 2, 9, 9, 77, 88]).1
    MAGIC [1, 0, 0, 0, 2, 9, 9, 77, 88] (by rfl)
  have h2 := (h.2.2 rfl 1 [0, 0, 2, 9, 9, 77, 88] 0 [2, 9, 9, 77, 88] (by rfl)
    (by rfl)).2.2 rfl 2 [9, 9, 77, 88] (by rfl)
  simpa using h2

/-- C7: every control the control producer emits from a match region carries
the wrapping byte difference of the aligned new and old windows as its add
field, the literal new slice from the end of the add region to `copy_end` as
its copy field, and as seek the next region's `add_old_pos` minus the end of
this region's add window in the old blob (as 64-bit signed values), with
seek 0 for the last control. -/
theorem C7_control_producer (old new : List Nat) (ms : List Match) (i : Nat)
    (hi : i < ms.length) :
    (controlProducer old new ms).length = ms.length ∧
    ∃ c m, (controlProducer old new ms).get? i = some c ∧ ms.get? i = some m ∧
      c.add.length = m.add_len ∧
      (∀ j a b, j < m.add_len →
         new.get? (m.add_new_pos + j) = some a →
         old.get? (m.add_old_pos + j) = some b →
         c.add.get? j = some (wsub a b)) ∧
      c.copy = (new.take m.copy_end).drop m.copy_pos ∧
      c.seek = (match ms.get? (i + 1) with
        | some m2 => toI64 m2.add_old_pos - toI64 (m.add_old_pos + m.add_len)
        | none => 0) := by
  refine ⟨controlProducer_length old new ms, ?_⟩
  have hm : ms.get? i = some (ms.get ⟨i, hi⟩) := List.get?_eq_get hi
  set m := ms.get ⟨i, hi⟩ with hmdef
  refine ⟨mkControl old new m (ms.get? (i + 1)), m, ?_, hm, ?_, ?_, rfl, ?_⟩
  · rw [controlProducer_get?, hm]
    rfl
  · simp [mkControl]
  · intro j a b hj ha hb
    simp only [mkControl, List.get?_map, List.get?_range hj, Option.map_some]
    rw [List.get?_eq_getElem?] at ha hb
    simp [ha, hb]
  · cases ms.get? (i + 1) <;> rfl

/-- Witness for C7: the single match over old `Hello\0` and new `Hero`. -/
theorem C7_control_producer_witness :
    (controlProducer [72, 101, 108, 108, 111, 0] [72, 101, 114, 111]
        [⟨0, 0, 2, 4⟩]).length = ([(⟨0, 0, 2, 4⟩ : Match)] : List Match).length ∧
    ∃ c m,
      (controlProducer [72, 101, 108, 108, 111, 0] [72, 101, 114, 111]
          [⟨0, 0, 2, 4⟩]).get? 0 = some c ∧
      ([(⟨0, 0, 2, 4⟩ : Match)] : List Match).get? 0 = some m ∧
      c.add.length = m.add_len ∧
      (∀ j a b, j < m.add_len →
         ([72, 101, 114, 111] : List Nat).get? (m.add_new_pos + j) = some a →
         ([72, 101, 108, 108, 111, 0] : List Nat).get? (m.add_old_pos + j) = some b →
         c.add.get? j = some (wsub a b)) ∧
      c.copy = (([72, 101, 114, 111] : List Nat).take m.copy_end).drop m.copy_pos ∧
      c.seek = (match ([(⟨0, 0, 2, 4⟩ : Match)] : List Match).get? (0 + 1) with
        | some m2 => toI64 m2.add_old_pos - toI64 (m.add_old_pos + m.add_len)
        | none => 0) :=
  C7_control_producer [72, 101, 108, 108, 111, 0] [72, 101, 114, 111]
    [⟨0, 0, 2, 4⟩] 0 (by decide)

/-- C9: the patcher's output is independent of the caller's buffer size -
for every old reader, decompressed patch stream and patcher state, reading
the patcher to exhaustion with a 1-byte pull buffer and with a 64-KiB pull
buffer produce identical results (byte-identical total output, and the
same failure if one occurs). -/
theorem C9_buffer_size_independence (p : Patcher) :
    patcherRun p 1 = patcherRun p 65536 := by
  rw [patcherRun_trace p 1 (by omega), patcherRun_trace p 65536 (by omega)]

end Ina

namespace Sufsort

set_option maxRecDepth 100000 in
/-- The embedding of `sacak` reproduces the documented test vector for
"Hello, world!\0" from sacak.rs. -/
theorem sacak_hello_vector :
    sacak [72, 101, 108, 108, 111, 44, 32, 119, 111, 114, 108, 100, 33, 0] =
      .ok [13, 6, 12, 5, 0, 11, 1, 10, 2, 3, 4, 8, 9, 7] := by
  rfl

/-- C6: `sacak` returns an empty array for empty input, and for nonempty
input whose last byte is not 0 it aborts with the `assert_eq!` diagnostic.
(The third clause of the claim, an abort for input larger than 2^31 - 1
bytes, has no corresponding check anywhere in `sacak`.) -/
theorem C6_sacak_preconditions :
    (sacak [] = .ok []) ∧
    (∀ data : List Nat, data ≠ [] → data.getLast? ≠ some 0 →
      sacak data = .error .assertFail) := by
  constructor
  · rfl
  · intro data hne hlast
    cases data with
    | nil => exact absurd rfl hne
    | cons a as => simp [sacak, hlast]

/-- Witness for C6 at concrete inputs: `[1, 2, 3]` has a nonzero final
byte and panics. -/
theorem C6_sacak_preconditions_witness :
    sacak [1, 2, 3] = .error .assertFail :=
  C6_sacak_preconditions.2 [1, 2, 3] (by decide) (by decide)

end Sufsort

namespace Ina

set_option maxRecDepth 600000 in
unseal Sufsort.binarySearchGo varintEncode in
/-- C2: `diff_with_config` writes the little-endian magic word and the
little-endian version word and then goes straight to the compressed
payload - the single-byte `data_offset` varint (constant `DATA_OFFSET`,
value 0) that the spec lists as the third header field is never written.
On the concrete pair below the ninth byte of the stream is 1, the
add-length varint of the first control, not the promised 0. -/
theorem C2_diff_header_layout :
    (∀ old new pl, diffPayload old new = .ok pl →
      diffStream old new = .ok (u32leBytes MAGIC ++ u32leBytes VERSION ++ zstdEncode pl)) ∧
    diffStream [104, 0] [104] = .ok [124, 108, 149, 92, 1, 0, 0, 0, 1, 0, 0, 0] := by
  constructor
  · intro old new pl h
    simp only [diffStream, h]
    rfl
  · have hsa : Sufsort.SuffixArray.new [104, 0] =
        .ok (Sufsort.SuffixArray.mk [104, 0] [1, 0]) := by
      rfl
    have hrun : mmRun [104, 0] [104] (Sufsort.SuffixArray.mk [104, 0] [1, 0]) 3
        MatchMaker.init = .ok [Match.mk 0 0 1 1] := by
      rfl
    have hmm : matchMaker [104, 0] [104] = .ok [Match.mk 0 0 1 1] := by
      simp only [matchMaker, hsa, List.length_cons, List.length_nil]
      exact hrun
    have hpl : diffPayload [104, 0] [104] = .ok [1, 0, 0, 0] := by
      simp only [diffPayload, hmm]
      rfl
    simp only [diffStream, hpl]
    rfl

set_option maxRecDepth 600000 in
unseal Sufsort.binarySearchGo varintEncode in
/-- Witness for C2 at a concrete pair: the stream is exactly the magic
word, the version word and the payload, with nothing in between. -/
theorem C2_diff_header_layout_witness :
    diffStream [104, 0] [104] =
      .ok (u32leBytes MAGIC ++ u32leBytes VERSION ++ zstdEncode [1, 0, 0, 0]) :=
  C2_diff_header_layout.1 [104, 0] [104] [1, 0, 0, 0] (by
    have hsa : Sufsort.SuffixArray.new [104, 0] =
        .ok (Sufsort.SuffixArray.mk [104, 0] [1, 0]) := by
      rfl
    have hrun : mmRun [104, 0] [104] (Sufsort.SuffixArray.mk [104, 0] [1, 0]) 3
        MatchMaker.init = .ok [Match.mk 0 0 1 1] := by
      rfl
    have hmm : matchMaker [104, 0] [104] = .ok [Match.mk 0 0 1 1] := by
      simp only [matchMaker, hsa, List.length_cons, List.length_nil]
      exact hrun
    simp only [diffPayload, hmm]
    rfl)

/-- C1: the round-trip law `patch(A, diff(A || 0, B)) = B` fails, already
at `A = []`, `B = []`: `diff` emits only the eight magic and version
bytes, and `patch` then fails with `UnexpectedEof` while reading the
`data_offset` varint that `diff_with_config` never wrote, instead of
writing back the empty `B`.  Appending the single missing `0x00`
data-offset byte to the same patch makes the round trip succeed. -/
theorem C1_round_trip_fails :
    diffStream [0] [] = .ok [124, 108, 149, 92, 1, 0, 0, 0] ∧
    patchFn [] [124, 108, 149, 92, 1, 0, 0, 0] = .error (.io .unexpectedEof) ∧
    patchFn [] [124, 108, 149, 92, 1, 0, 0, 0, 0] = .ok [] := by
  refine ⟨by rfl, by rfl, ?_⟩
  have h2 : patchFn [] [124, 108, 149, 92, 1, 0, 0, 0, 0] =
      (patcherRun (Patcher.mk [] 0 [] .atNextControl) DEFAULT_BUF_SIZE).mapError .io := by
    rfl
  rw [h2, patcherRun_trace _ _ (by norm_num [DEFAULT_BUF_SIZE])]
  rfl

end Ina
